import Mathlib

/-!
Shallow embedding of the stock-ledger core of the inventory backend:
store-stock model and the controllers for sales invoices, packing lists
(transfer manifests), quality checks and direct stock adjustment.

Modelling conventions:
- JavaScript numbers are modelled by the rationals; all arithmetic the
  embedded code performs (+, -, *, / 100, * exchangeRate) is exact on the
  inputs appearing here, so no floating-point rounding is modelled.
- Mongo ObjectIds are modelled by natural numbers.
- Optional numeric document fields read through a JavaScript truthiness
  coercion (x || 0) are modelled as plain rationals with 0 standing for a
  missing value; string truthiness tests (if (x)) become a comparison with
  the empty string, and numeric truthiness becomes a comparison with 0.
- A mongoose save runs the schema validators; for the store-stock schema
  the constraints exercised by these operations are quantity min 0 and the
  currency enum INR/AED, so saving validates exactly those and a failing
  validation leaves the stored document unchanged (the thrown
  ValidationError is modelled as the validationFailed error kind).
- A mongoose document holds only the paths its schema declares: an
  assignment to an undeclared path (the packing-list approval writes a
  priceAfterMargin path the store-stock schema does not declare) is
  discarded by strict mode on save and is therefore not part of the
  embedded document.
- The controllers perform sequential independent writes with no rollback:
  every operation returns the state holding all writes applied before the
  first failure, together with an optional error.
-/

namespace Inventory

abbrev ProductId := Nat
abbrev StoreId := Nat
abbrev UserId := Nat

/-- Error kinds surfaced by the controllers. ApiError.badRequest carrying an
insufficient-stock message is modelled structurally as insufficientStock with
the available and requested amounts that the source interpolates into the
message; the stock-not-found badRequest message is modelled as stockNotFound;
a mongoose schema ValidationError raised by a save is validationFailed. -/
inductive ErrKind where
  | invalidInput (msg : String)
  | insufficientStock (available requested : ℚ)
  | stockNotFound
  | notFound (msg : String)
  | conflict (msg : String)
  | validationFailed
deriving DecidableEq, Repr

/-- One StoreStock document (src/models/store-stock.model.ts), restricted
to the schema paths these operations touch: the priceAfterMargin path the
packing-list approval assigns is not declared by the schema, so strict
mode drops it on save and it is no field of the persisted document;
unitPriceAED, dpPrice and the other unused declared fields are not
modelled. -/
structure StockEntry where
  id : Nat
  product : ProductId
  store : StoreId
  quantity : ℚ
  margin : ℚ
  currency : String
  unitPrice : ℚ
  lastUpdatedBy : Option UserId
deriving DecidableEq, Repr

/-- StoreStock.findOne with a product and store filter: first matching
document. -/
def findStock (l : List StockEntry) (p : ProductId) (s : StoreId) :
    Option StockEntry :=
  l.find? (fun e => e.product == p && e.store == s)

/-- StoreStock.findById. -/
def findStockById (l : List StockEntry) (i : Nat) : Option StockEntry :=
  l.find? (fun e => e.id == i)

/-- Persisting a mutated document: replace the first entry matching the
(product, store) key. Every caller mutates the document returned by a
findOne on the same key without changing the key, so the saved document is
exactly that first match. -/
def replaceStock (l : List StockEntry) (p : ProductId) (s : StoreId)
    (e : StockEntry) : List StockEntry :=
  match l with
  | [] => []
  | x :: xs =>
      if x.product == p && x.store == s then e :: xs
      else x :: replaceStock xs p s e

/-- Persisting a document found by id. -/
def replaceStockById (l : List StockEntry) (i : Nat) (e : StockEntry) :
    List StockEntry :=
  match l with
  | [] => []
  | x :: xs => if x.id == i then e :: xs else x :: replaceStockById xs i e

/-- The store-stock schema validators exercised here: quantity min 0 and the
currency enum INR/AED. -/
def stockSaveOk (e : StockEntry) : Bool :=
  decide (0 ≤ e.quantity) && (e.currency == "INR" || e.currency == "AED")

/-- stock.save() after mutating the document found at key (p, s): validate,
then persist; a validation failure leaves the collection unchanged. -/
def saveStockByKey (l : List StockEntry) (p : ProductId) (s : StoreId)
    (e : StockEntry) : Except ErrKind (List StockEntry) :=
  if stockSaveOk e then .ok (replaceStock l p s e)
  else .error .validationFailed

/-- stock.save() after mutating the document found by id. -/
def saveStockById (l : List StockEntry) (i : Nat) (e : StockEntry) :
    Except ErrKind (List StockEntry) :=
  if stockSaveOk e then .ok (replaceStockById l i e)
  else .error .validationFailed

/-- StoreStock.create: validate, then append the new document. -/
def createStock (l : List StockEntry) (e : StockEntry) :
    Except ErrKind (List StockEntry) :=
  if stockSaveOk e then .ok (l ++ [e]) else .error .validationFailed

/-- Conditional setting of lastUpdatedBy (the controllers guard it with
if (req.user)). -/
def setUser (old : Option UserId) (user : Option UserId) : Option UserId :=
  match user with
  | some u => some u
  | none => old

/-- The stock-consumption step shared by createSalesInvoice and
createPackingList: find the entry, fail if absent or insufficient, otherwise
decrement and save. -/
def decrementStock (l : List StockEntry) (p : ProductId) (s : StoreId)
    (qty : ℚ) (user : Option UserId) : Except ErrKind (List StockEntry) :=
  match findStock l p s with
  | none => .error .stockNotFound
  | some stock =>
      if stock.quantity < qty then
        .error (.insufficientStock stock.quantity qty)
      else
        saveStockByKey l p s
          { stock with
            quantity := stock.quantity - qty
            lastUpdatedBy := setUser stock.lastUpdatedBy user }

/-- The restoration step shared by deleteSalesInvoice and the removed-items
loops of updateSalesInvoice and updatePackingList: if the entry exists, add
the quantity back and save; if it is absent, silently do nothing. -/
def restoreStock (l : List StockEntry) (p : ProductId) (s : StoreId)
    (qty : ℚ) (user : Option UserId) : Except ErrKind (List StockEntry) :=
  match findStock l p s with
  | none => .ok l
  | some stock =>
      saveStockByKey l p s
        { stock with
          quantity := stock.quantity + qty
          lastUpdatedBy := setUser stock.lastUpdatedBy user }

/-- Catalog item (the Item model): the fields read by the embedded
controllers. Optional numeric fields read through x || 0 are plain
rationals with 0 for absent; qcStatus and status are the strings the
quality-check controller writes. -/
structure Item where
  id : ProductId
  name : String
  unitPrice : ℚ
  currency : String
  quantity : ℚ
  damagedQuantity : ℚ
  availableQuantity : ℚ
  qcStatus : String
  status : String
deriving DecidableEq, Repr

def findItem (catalog : List Item) (i : ProductId) : Option Item :=
  catalog.find? (fun it => it.id == i)

def replaceItem (catalog : List Item) (i : ProductId) (it : Item) :
    List Item :=
  match catalog with
  | [] => []
  | x :: xs => if x.id == i then it :: xs else x :: replaceItem xs i it

/-- Store (location) document: the fields the quality-check fan-out
queries. -/
structure Store where
  id : StoreId
  purchaser : Option String
  isActive : Bool
deriving DecidableEq, Repr

def findStore (stores : List Store) (i : StoreId) : Option Store :=
  stores.find? (fun s => s.id == i)

/-- One line of an invoice-creation request body. -/
structure RawInvoiceItem where
  itemId : ProductId
  description : Option String
  quantity : ℚ
  unitPrice : ℚ
  discount : Option ℚ
  vat : Option ℚ
deriving DecidableEq, Repr

/-- One normalized invoice line (the NormalizedInvoiceItem shape of
sales-invoice.controller.ts): discount holds the computed discount amount,
vat the percentage. -/
structure NormalizedInvoiceItem where
  item : ProductId
  description : String
  quantity : ℚ
  unitPrice : ℚ
  discount : ℚ
  vat : ℚ
  vatAmount : ℚ
  totalPrice : ℚ
deriving DecidableEq, Repr

/-- Body of the normalization loop of normalizeInvoiceItems. -/
def normalizeOneInvoiceItem (catalog : List Item) (entry : RawInvoiceItem) :
    Except ErrKind NormalizedInvoiceItem :=
  match findItem catalog entry.itemId with
  | none => .error (.invalidInput "Invalid item")
  | some item =>
      let discountPercentage := entry.discount.getD 0
      let grossAmount := entry.quantity * entry.unitPrice
      let discountAmount := grossAmount * discountPercentage / 100
      let vatPercentage := entry.vat.getD 0
      let amountAfterDiscount := grossAmount - discountAmount
      let vatAmount := amountAfterDiscount * vatPercentage / 100
      let totalPrice := amountAfterDiscount + vatAmount
      .ok { item := item.id
            description := entry.description.getD item.name
            quantity := entry.quantity
            unitPrice := entry.unitPrice
            discount := discountAmount
            vat := vatPercentage
            vatAmount := vatAmount
            totalPrice := totalPrice }

/-- The sequential normalization loop: the first failing entry aborts. -/
def normalizeInvoiceLoop (catalog : List Item) :
    List RawInvoiceItem → Except ErrKind (List NormalizedInvoiceItem)
  | [] => .ok []
  | entry :: rest =>
      match normalizeOneInvoiceItem catalog entry with
      | .error e => .error e
      | .ok out =>
          match normalizeInvoiceLoop catalog rest with
          | .error e => .error e
          | .ok outs => .ok (out :: outs)

/-- normalizeInvoiceItems of sales-invoice.controller.ts. -/
def normalizeInvoiceItems (catalog : List Item)
    (items : List RawInvoiceItem) :
    Except ErrKind (List NormalizedInvoiceItem) :=
  if items.isEmpty then
    .error (.invalidInput "At least one invoice item is required")
  else
    normalizeInvoiceLoop catalog items

/-- SalesInvoice document: the fields the embedded controllers read and
write. -/
structure SalesInvoice where
  id : Nat
  invoiceNumber : String
  customer : Nat
  store : StoreId
  subTotal : ℚ
  discountTotal : ℚ
  vatTotal : ℚ
  netAmount : ℚ
  taxAmount : ℚ
  items : List NormalizedInvoiceItem
deriving DecidableEq, Repr

def findInvoice (l : List SalesInvoice) (i : Nat) : Option SalesInvoice :=
  l.find? (fun inv => inv.id == i)

def replaceInvoice (l : List SalesInvoice) (i : Nat) (inv : SalesInvoice) :
    List SalesInvoice :=
  match l with
  | [] => []
  | x :: xs => if x.id == i then inv :: xs else x :: replaceInvoice xs i inv

def removeInvoice (l : List SalesInvoice) (i : Nat) : List SalesInvoice :=
  l.filter (fun inv => !(inv.id == i))

/-- One packing-list line item (productId, quantity). -/
structure PLItem where
  product : ProductId
  quantity : ℚ
deriving DecidableEq, Repr

/-- PackingList document: the fields the embedded controllers read and
write. -/
structure PackingList where
  id : Nat
  boxNumber : String
  items : List PLItem
  store : Option StoreId
  toStore : Option StoreId
  currency : String
  exchangeRate : Option ℚ
  status : String
  approvedBy : Option UserId
deriving DecidableEq, Repr

def findPL (l : List PackingList) (i : Nat) : Option PackingList :=
  l.find? (fun pl => pl.id == i)

def replacePL (l : List PackingList) (i : Nat) (pl : PackingList) :
    List PackingList :=
  match l with
  | [] => []
  | x :: xs => if x.id == i then pl :: xs else x :: replacePL xs i pl

def removePL (l : List PackingList) (i : Nat) : List PackingList :=
  l.filter (fun pl => !(pl.id == i))

/-- The persisted collections the embedded controllers touch, with counters
supplying fresh document ids. -/
structure GState where
  catalog : List Item
  stores : List Store
  customers : List Nat
  invoices : List SalesInvoice
  packingLists : List PackingList
  stocks : List StockEntry
  nextStockId : Nat
  nextInvoiceId : Nat
  nextPLId : Nat
deriving DecidableEq, Repr

def invoiceSubTotal (items : List NormalizedInvoiceItem) : ℚ :=
  items.foldl (fun sum it => sum + it.quantity * it.unitPrice) 0

def invoiceDiscountTotal (items : List NormalizedInvoiceItem) : ℚ :=
  items.foldl (fun sum it => sum + it.discount) 0

def invoiceVatTotal (items : List NormalizedInvoiceItem) : ℚ :=
  items.foldl (fun sum it => sum + it.vatAmount) 0

/-- The stock-reduction loop of createSalesInvoice (and, with packing-list
items, of createPackingList): stops at the first failure, keeping the
writes already applied. -/
def applyDecrements (stocks : List StockEntry) (storeId : StoreId)
    (user : Option UserId) :
    List (ProductId × ℚ) → List StockEntry × Option ErrKind
  | [] => (stocks, none)
  | (p, q) :: rest =>
      match decrementStock stocks p storeId q user with
      | .error e => (stocks, some e)
      | .ok s1 => applyDecrements s1 storeId user rest

/-- Request body of createSalesInvoice (the fields the embedding uses);
taxAmount defaults to 0 in the destructuring. -/
structure CreateInvoiceReq where
  invoiceNumber : String
  customerId : Nat
  storeId : StoreId
  items : List RawInvoiceItem
  taxAmount : ℚ
  user : Option UserId
deriving DecidableEq, Repr

/-- createSalesInvoice of sales-invoice.controller.ts. -/
def createSalesInvoice (st : GState) (r : CreateInvoiceReq) :
    GState × Option ErrKind :=
  if (st.invoices.find?
      (fun inv => inv.invoiceNumber == r.invoiceNumber)).isSome then
    (st, some (.conflict "Invoice number already exists"))
  else if !(st.customers.contains r.customerId) then
    (st, some (.invalidInput "Invalid customer"))
  else if (st.stores.find?
      (fun s => s.id == r.storeId && s.isActive)).isNone then
    (st, some (.invalidInput "Invalid store"))
  else
    match normalizeInvoiceItems st.catalog r.items with
    | .error e => (st, some e)
    | .ok normalizedItems =>
        let subTotal := invoiceSubTotal normalizedItems
        let discountTotal := invoiceDiscountTotal normalizedItems
        let vatTotal := invoiceVatTotal normalizedItems
        let netAmount := subTotal - discountTotal + vatTotal + r.taxAmount
        match applyDecrements st.stocks r.storeId r.user
            (normalizedItems.map (fun it => (it.item, it.quantity))) with
        | (s1, some e) => ({ st with stocks := s1 }, some e)
        | (s1, none) =>
            let inv : SalesInvoice :=
              { id := st.nextInvoiceId
                invoiceNumber := r.invoiceNumber
                customer := r.customerId
                store := r.storeId
                subTotal := subTotal
                discountTotal := discountTotal
                vatTotal := vatTotal
                netAmount := netAmount
                taxAmount := r.taxAmount
                items := normalizedItems }
            ({ st with
                stocks := s1
                invoices := st.invoices ++ [inv]
                nextInvoiceId := st.nextInvoiceId + 1 }, none)

/-- Lookup in the old-items map built by the update controllers: the map is
filled with Map.set per line, so a later line for the same product wins, and
a miss reads as 0 through the || 0 coercion. -/
def oldQtyOf (items : List (ProductId × ℚ)) (p : ProductId) : ℚ :=
  match items.reverse.find? (fun it => it.1 == p) with
  | some it => it.2
  | none => 0

/-- Key list of the old-items map in iteration order (insertion order:
first occurrence of each product). -/
def mapKeys (items : List (ProductId × ℚ)) : List ProductId :=
  items.foldl
    (fun acc it => if acc.contains it.1 then acc else acc ++ [it.1]) []

/-- The diff loop over the new items of updateSalesInvoice and of
updatePackingList: diff = newQty - oldQty; a zero diff touches nothing; a
positive diff needs sufficient stock; the entry is then saved with
quantity - diff. -/
def applyDiffs (stocks : List StockEntry) (storeId : StoreId)
    (user : Option UserId) (oldItems : List (ProductId × ℚ)) :
    List (ProductId × ℚ) → List StockEntry × Option ErrKind
  | [] => (stocks, none)
  | (p, q) :: rest =>
      let oldQty := oldQtyOf oldItems p
      let diff := q - oldQty
      if diff == 0 then applyDiffs stocks storeId user oldItems rest
      else
        match findStock stocks p storeId with
        | none => (stocks, some .stockNotFound)
        | some stock =>
            if diff > 0 ∧ stock.quantity < diff then
              (stocks, some (.insufficientStock stock.quantity diff))
            else
              match saveStockByKey stocks p storeId
                  { stock with
                    quantity := stock.quantity - diff
                    lastUpdatedBy := setUser stock.lastUpdatedBy user } with
              | .error e => (stocks, some e)
              | .ok s1 => applyDiffs s1 storeId user oldItems rest

/-- The removed-items loop of updateSalesInvoice and updatePackingList:
every key of the old map not processed by the diff loop is restored by its
old quantity; a missing stock entry is silently skipped. -/
def applyRemovedRestores (stocks : List StockEntry) (storeId : StoreId)
    (user : Option UserId) (oldItems : List (ProductId × ℚ))
    (processed : List ProductId) :
    List ProductId → List StockEntry × Option ErrKind
  | [] => (stocks, none)
  | p :: rest =>
      if processed.contains p then
        applyRemovedRestores stocks storeId user oldItems processed rest
      else
        match restoreStock stocks p storeId (oldQtyOf oldItems p) user with
        | .error e => (stocks, some e)
        | .ok s1 =>
            applyRemovedRestores s1 storeId user oldItems processed rest

/-- Request body of updateSalesInvoice (the fields the embedding uses): an
absent items array skips the whole reconciliation branch; taxAmount is
applied when it is a number. -/
structure UpdateInvoiceReq where
  id : Nat
  items : Option (List RawInvoiceItem)
  taxAmount : Option ℚ
  user : Option UserId
deriving DecidableEq, Repr

def invoiceOldPairs (invoice : SalesInvoice) : List (ProductId × ℚ) :=
  invoice.items.map (fun it => (it.item, it.quantity))

/-- updateSalesInvoice of sales-invoice.controller.ts. A failure inside the
items branch aborts before invoice.save(), so the persisted invoice is
unchanged while the stock writes already applied remain. -/
def updateSalesInvoice (st : GState) (r : UpdateInvoiceReq) :
    GState × Option ErrKind :=
  match findInvoice st.invoices r.id with
  | none => (st, some (.notFound "Sales invoice not found"))
  | some invoice =>
      let inv1 :=
        match r.taxAmount with
        | some t => { invoice with taxAmount := t }
        | none => invoice
      match r.items with
      | none =>
          ({ st with invoices := replaceInvoice st.invoices r.id inv1 },
           none)
      | some rawItems =>
          match normalizeInvoiceItems st.catalog rawItems with
          | .error e => (st, some e)
          | .ok normalizedItems =>
              let storeId := invoice.store
              let oldPairs := invoiceOldPairs invoice
              let newPairs :=
                normalizedItems.map (fun it => (it.item, it.quantity))
              match applyDiffs st.stocks storeId r.user oldPairs
                  newPairs with
              | (s1, some e) => ({ st with stocks := s1 }, some e)
              | (s1, none) =>
                  match applyRemovedRestores s1 storeId r.user oldPairs
                      (newPairs.map (fun it => it.1))
                      (mapKeys oldPairs) with
                  | (s2, some e) => ({ st with stocks := s2 }, some e)
                  | (s2, none) =>
                      let subTotal := invoiceSubTotal normalizedItems
                      let discountTotal :=
                        invoiceDiscountTotal normalizedItems
                      let vatTotal := invoiceVatTotal normalizedItems
                      let inv2 :=
                        { inv1 with
                          items := normalizedItems
                          subTotal := subTotal
                          discountTotal := discountTotal
                          vatTotal := vatTotal
                          netAmount := subTotal - discountTotal + vatTotal
                            + inv1.taxAmount }
                      ({ st with
                          stocks := s2
                          invoices :=
                            replaceInvoice st.invoices r.id inv2 }, none)

/-- The restoration loop of deleteSalesInvoice: every line item adds its
quantity back to the stock entry when one exists; a missing entry is
silently skipped. -/
def applyDeleteRestores (stocks : List StockEntry) (storeId : StoreId)
    (user : Option UserId) :
    List (ProductId × ℚ) → List StockEntry × Option ErrKind
  | [] => (stocks, none)
  | (p, q) :: rest =>
      match restoreStock stocks p storeId q user with
      | .error e => (stocks, some e)
      | .ok s1 => applyDeleteRestores s1 storeId user rest

/-- deleteSalesInvoice of sales-invoice.controller.ts. -/
def deleteSalesInvoice (st : GState) (id : Nat) (user : Option UserId) :
    GState × Option ErrKind :=
  match findInvoice st.invoices id with
  | none => (st, some (.notFound "Sales invoice not found"))
  | some invoice =>
      match applyDeleteRestores st.stocks invoice.store user
          (invoiceOldPairs invoice) with
      | (s1, some e) => ({ st with stocks := s1 }, some e)
      | (s1, none) =>
          ({ st with
              stocks := s1
              invoices := removeInvoice st.invoices id }, none)

/-- One line of a packing-list request body. -/
structure RawPLItem where
  productId : ProductId
  quantity : ℚ
deriving DecidableEq, Repr

/-- The sequential packing-list normalization loop. -/
def normalizePLLoop (catalog : List Item) :
    List RawPLItem → Except ErrKind (List PLItem)
  | [] => .ok []
  | entry :: rest =>
      match findItem catalog entry.productId with
      | none => .error (.invalidInput "Invalid product")
      | some product =>
          match normalizePLLoop catalog rest with
          | .error e => .error e
          | .ok outs =>
              .ok ({ product := product.id
                     quantity := entry.quantity } :: outs)

/-- normalizeItems of packing-list.controller.ts: items are required and
every product must exist. -/
def normalizePLItems (catalog : List Item) (items : List RawPLItem) :
    Except ErrKind (List PLItem) :=
  if items.isEmpty then
    .error (.invalidInput "Packing list items are required")
  else
    normalizePLLoop catalog items

/-- Request body of createPackingList (the fields the embedding uses). -/
structure CreatePLReq where
  boxNumber : String
  items : List RawPLItem
  storeId : Option StoreId
  toStoreId : Option StoreId
  currency : Option String
  exchangeRate : Option ℚ
  status : Option String
  user : UserId
deriving DecidableEq, Repr

/-- JavaScript string defaulting, s || d. -/
def strOr (s : Option String) (d : String) : String :=
  match s with
  | some c => if c == "" then d else c
  | none => d

/-- createPackingList of packing-list.controller.ts. -/
def createPackingList (st : GState) (r : CreatePLReq) :
    GState × Option ErrKind :=
  if (st.packingLists.find?
      (fun pl => pl.boxNumber == r.boxNumber)).isSome then
    (st, some (.conflict "Packing list with this box number already exists"))
  else
    match r.storeId with
    | none => (st, some (.invalidInput "Store ID is required"))
    | some sid =>
        if (match r.toStoreId with
            | some t => t == sid
            | none => false) then
          (st, some (.invalidInput
            "Source and destination stores cannot be the same"))
        else
          match normalizePLItems st.catalog r.items with
          | .error e => (st, some e)
          | .ok normalizedItems =>
              match applyDecrements st.stocks sid (some r.user)
                  (normalizedItems.map
                    (fun it => (it.product, it.quantity))) with
              | (s1, some e) => ({ st with stocks := s1 }, some e)
              | (s1, none) =>
                  let pl : PackingList :=
                    { id := st.nextPLId
                      boxNumber := r.boxNumber
                      items := normalizedItems
                      store := some sid
                      toStore := r.toStoreId
                      currency := strOr r.currency "INR"
                      exchangeRate := r.exchangeRate
                      status := strOr r.status "pending"
                      approvedBy := none }
                  ({ st with
                      stocks := s1
                      packingLists := st.packingLists ++ [pl]
                      nextPLId := st.nextPLId + 1 }, none)

/-- Request body of updatePackingList (the fields the embedding uses). -/
structure UpdatePLReq where
  id : Nat
  items : Option (List RawPLItem)
  storeId : Option StoreId
  toStoreId : Option StoreId
  currency : Option String
  exchangeRate : Option ℚ
  status : Option String
  user : Option UserId
deriving DecidableEq, Repr

/-- The allowed values of the status update. -/
def plStatusStrings : List String :=
  ["pending", "in_transit", "approved", "shipped", "rejected"]

/-- JavaScript truthiness of the optional exchange rate. -/
def rateTruthy (exchangeRate : Option ℚ) : Bool :=
  match exchangeRate with
  | some r => r != 0
  | none => false

/-- The destination-stock write of one approval line: add the quantity to
the existing destination entry, updating its currency and lastUpdatedBy,
or create the entry when absent; the Nat result is the next fresh document
id. The controller also assigns finalPrice to a priceAfterMargin path the
schema does not declare, an assignment strict mode discards on save, so
the persisted document carries no trace of it (a created entry keeps the
schema default unitPrice 0). -/
def approvalStep (stocks : List StockEntry) (nid : Nat) (dest : StoreId)
    (p : ProductId) (finalCurrency : String) (finalPrice : ℚ) (qty : ℚ)
    (user : Option UserId) : Except ErrKind (List StockEntry × Nat) :=
  match findStock stocks p dest with
  | some d =>
      (saveStockByKey stocks p dest
        { d with
          quantity := d.quantity + qty
          currency := finalCurrency
          lastUpdatedBy := user }).map (fun l => (l, nid))
  | none =>
      (createStock stocks
        { id := nid
          product := p
          store := dest
          quantity := qty
          margin := 0
          currency := finalCurrency
          unitPrice := 0
          lastUpdatedBy := user }).map (fun l => (l, nid + 1))

/-- The move-to-destination loop run when a packing list transitions to
approved: per line item, fetch the product, convert the price when the
transfer currency is AED with a truthy exchange rate and a truthy product
unit price, then add the quantity to the destination entry (creating it if
absent) and, in the conversion case, repoint the product catalog entry to
AED at the converted price. A failure keeps the writes already applied. -/
def applyApprovalMoves (stocks : List StockEntry) (catalog : List Item)
    (nextStockId : Nat) (dest : StoreId) (currency : String)
    (exchangeRate : Option ℚ) (user : Option UserId) :
    List PLItem → (List StockEntry × List Item × Nat) × Option ErrKind
  | [] => ((stocks, catalog, nextStockId), none)
  | item :: rest =>
      match findItem catalog item.product with
      | none =>
          ((stocks, catalog, nextStockId),
           some (.invalidInput "Product not found"))
      | some product =>
          let convert :=
            currency == "AED" && rateTruthy exchangeRate &&
              product.unitPrice != 0
          let finalPrice :=
            if convert then product.unitPrice * exchangeRate.getD 0
            else product.unitPrice
          let finalCurrency := if currency == "" then "INR" else currency
          match approvalStep stocks nextStockId dest item.product
              finalCurrency finalPrice item.quantity user with
          | .error e => ((stocks, catalog, nextStockId), some e)
          | .ok (s1, n1) =>
              let catalog1 :=
                if convert then
                  replaceItem catalog product.id
                    { product with currency := "AED"
                                   unitPrice := finalPrice }
                else catalog
              applyApprovalMoves s1 catalog1 n1 dest currency exchangeRate
                user rest

/-- Applying the status assignment at the end of the status branch of
updatePackingList, together with the approvedBy attribution. -/
def markPLStatus (pl : PackingList) (stat : String) (user : Option UserId) :
    PackingList :=
  let pl1 := { pl with status := stat }
  if (stat == "approved" || stat == "shipped") then
    match user with
    | some u => { pl1 with approvedBy := some u }
    | none => pl1
  else pl1

/-- The status branch and final save of updatePackingList, applied to the
in-memory packing list pl after the field updates and the items branch,
with stocks1 holding the stock writes of the items branch. -/
def finishPLUpdate (st : GState) (stocks1 : List StockEntry)
    (pl : PackingList) (r : UpdatePLReq) : GState × Option ErrKind :=
  match r.status with
  | some stat =>
      if stat != "" && plStatusStrings.contains stat then
        if stat == "approved" && pl.status != "approved" then
          match pl.toStore with
          | none =>
              ({ st with stocks := stocks1 },
               some (.invalidInput
                 "Destination store (To Store) is required for approval"))
          | some dest =>
              match applyApprovalMoves stocks1 st.catalog st.nextStockId
                  dest pl.currency pl.exchangeRate r.user pl.items with
              | ((s2, cat2, n2), some e) =>
                  ({ st with
                      stocks := s2
                      catalog := cat2
                      nextStockId := n2 }, some e)
              | ((s2, cat2, n2), none) =>
                  let pl1 := markPLStatus pl stat r.user
                  ({ st with
                      stocks := s2
                      catalog := cat2
                      nextStockId := n2
                      packingLists :=
                        replacePL st.packingLists pl.id pl1 }, none)
        else
          let pl1 := markPLStatus pl stat r.user
          ({ st with
              stocks := stocks1
              packingLists := replacePL st.packingLists pl.id pl1 }, none)
      else
        ({ st with
            stocks := stocks1
            packingLists := replacePL st.packingLists pl.id pl }, none)
  | none =>
      ({ st with
          stocks := stocks1
          packingLists := replacePL st.packingLists pl.id pl }, none)

def plOldPairs (pl : PackingList) : List (ProductId × ℚ) :=
  pl.items.map (fun it => (it.product, it.quantity))

/-- updatePackingList of packing-list.controller.ts. -/
def updatePackingList (st : GState) (r : UpdatePLReq) :
    GState × Option ErrKind :=
  match findPL st.packingLists r.id with
  | none => (st, some (.notFound "Packing list not found"))
  | some pl0 =>
      let pl1 :=
        match r.toStoreId with
        | some t => { pl0 with toStore := some t }
        | none => pl0
      let pl2 :=
        match r.currency with
        | some c => if c != "" then { pl1 with currency := c } else pl1
        | none => pl1
      let pl3 :=
        match r.exchangeRate with
        | some x =>
            if x != 0 then { pl2 with exchangeRate := some x } else pl2
        | none => pl2
      match r.items with
      | none => finishPLUpdate st st.stocks pl3 r
      | some raws =>
          match normalizePLItems st.catalog raws with
          | .error e => (st, some e)
          | .ok newItems =>
              match r.storeId with
              | none =>
                  finishPLUpdate st st.stocks { pl3 with items := newItems }
                    r
              | some sid =>
                  let oldPairs := plOldPairs pl0
                  let newPairs :=
                    newItems.map (fun it => (it.product, it.quantity))
                  match applyDiffs st.stocks sid r.user oldPairs
                      newPairs with
                  | (s1, some e) => ({ st with stocks := s1 }, some e)
                  | (s1, none) =>
                      match applyRemovedRestores s1 sid r.user oldPairs
                          (newPairs.map (fun it => it.1))
                          (mapKeys oldPairs) with
                      | (s2, some e) => ({ st with stocks := s2 }, some e)
                      | (s2, none) =>
                          finishPLUpdate st s2
                            { pl3 with items := newItems } r

/-- deletePackingList of packing-list.controller.ts: the packing list is
removed without restoring any stock (the controller only deletes). -/
def deletePackingList (st : GState) (id : Nat) : GState × Option ErrKind :=
  match findPL st.packingLists id with
  | none => (st, some (.notFound "Packing list not found"))
  | some _ =>
      ({ st with packingLists := removePL st.packingLists id }, none)

/-- adjustStockQuantity of the store-stock controller: the only check on
the new quantity is that it is a number; persisting it still runs the
schema validators. -/
def adjustStockQuantity (st : GState) (stockId : Nat) (quantity : Option ℚ)
    (user : Option UserId) : GState × Option ErrKind :=
  match user with
  | none => (st, some (.invalidInput "User context missing"))
  | some u =>
      match findStockById st.stocks stockId with
      | none => (st, some (.notFound "Store stock record not found"))
      | some stock =>
          match quantity with
          | none => (st, some (.invalidInput "Quantity is required"))
          | some q =>
              match saveStockById st.stocks stockId
                  { stock with quantity := q, lastUpdatedBy := some u } with
              | .error e => (st, some e)
              | .ok s1 => ({ st with stocks := s1 }, none)

/-- Request body of submitQualityCheck (the fields the embedding uses). -/
structure QCReq where
  productId : ProductId
  status : String
  damagedQuantity : Option ℚ
  user : Option UserId
deriving DecidableEq, Repr

def qcStatusStrings : List String := ["approved", "rejected", "pending"]

/-- The intake-eligible stores of the quality-check fan-out:
Store.find with purchaser ROLE_PURCHASER and isActive true (the fallback to
all active stores is commented out in the source). -/
def purchaserStores (stores : List Store) : List Store :=
  stores.filter (fun s => s.purchaser == some "ROLE_PURCHASER" && s.isActive)

/-- The fan-out loop of submitQualityCheck on approval: per eligible store,
when the available quantity is positive, add it to the existing stock entry
or create one; a failing write aborts the remaining stores but the whole
loop sits in a try/catch whose error is logged and swallowed. -/
def qcFanOut (stocks : List StockEntry) (nextStockId : Nat) (product : Item)
    (avail : ℚ) (user : UserId) :
    List Store → List StockEntry × Nat
  | [] => (stocks, nextStockId)
  | store :: rest =>
      match findStock stocks product.id store.id with
      | none =>
          if avail > 0 then
            match createStock stocks
                { id := nextStockId
                  product := product.id
                  store := store.id
                  quantity := avail
                  margin := 0
                  currency := if product.currency == "" then "INR"
                              else product.currency
                  unitPrice := product.unitPrice
                  lastUpdatedBy := some user } with
            | .error _ => (stocks, nextStockId)
            | .ok s1 => qcFanOut s1 (nextStockId + 1) product avail user rest
          else qcFanOut stocks nextStockId product avail user rest
      | some existing =>
          if avail > 0 then
            match saveStockByKey stocks product.id store.id
                { existing with
                  quantity := existing.quantity + avail
                  lastUpdatedBy := some user } with
            | .error _ => (stocks, nextStockId)
            | .ok s1 => qcFanOut s1 nextStockId product avail user rest
          else qcFanOut stocks nextStockId product avail user rest

/-- The product-document updates of submitQualityCheck. -/
def qcUpdateProduct (product : Item) (stat : String) (damaged : Option ℚ) :
    Item :=
  let p1 := { product with qcStatus := stat }
  let p2 :=
    match damaged with
    | some d =>
        { p1 with
          damagedQuantity := d
          availableQuantity := max 0 (product.quantity - d) }
    | none => p1
  { p2 with
    status := if stat == "approved" then "store_pending"
              else if stat == "rejected" then "qc_failed"
              else "pending_qc" }

/-- submitQualityCheck of the quality-check controller (the revision that
fans out store-stock writes on approval). -/
def submitQualityCheck (st : GState) (r : QCReq) : GState × Option ErrKind :=
  match r.user with
  | none => (st, some (.invalidInput "User context missing"))
  | some u =>
      match findItem st.catalog r.productId with
      | none => (st, some (.notFound "Product not found"))
      | some product =>
          if !(qcStatusStrings.contains r.status) then
            (st, some (.invalidInput "Invalid QC status"))
          else if (match r.damagedQuantity with
                   | some d => decide (d < 0)
                   | none => false) then
            (st, some (.invalidInput
              "Damaged quantity must be a non-negative number"))
          else
            let catalog1 :=
              replaceItem st.catalog product.id
                (qcUpdateProduct product r.status r.damagedQuantity)
            if r.status == "approved" then
              let avail :=
                max 0 (product.quantity - (r.damagedQuantity.getD 0))
              let (s1, n1) :=
                qcFanOut st.stocks st.nextStockId product avail u
                  (purchaserStores st.stores)
              ({ st with
                  catalog := catalog1
                  stocks := s1
                  nextStockId := n1 }, none)
            else
              ({ st with catalog := catalog1 }, none)

/-- The ledger operations of the claims: invoice create/edit/delete,
manifest create/edit/approve/delete (approval is a status edit of
updatePackingList), quality-check fan-out and direct quantity
adjustment. -/
inductive LedgerOp where
  | createInvoice (r : CreateInvoiceReq)
  | updateInvoice (r : UpdateInvoiceReq)
  | deleteInvoice (id : Nat) (user : Option UserId)
  | createManifest (r : CreatePLReq)
  | updateManifest (r : UpdatePLReq)
  | deleteManifest (id : Nat)
  | submitQC (r : QCReq)
  | adjustStock (stockId : Nat) (quantity : Option ℚ) (user : Option UserId)
deriving Repr

/-- Dispatching one operation against the persisted state. -/
def applyOp (st : GState) : LedgerOp → GState × Option ErrKind
  | .createInvoice r => createSalesInvoice st r
  | .updateInvoice r => updateSalesInvoice st r
  | .deleteInvoice id user => deleteSalesInvoice st id user
  | .createManifest r => createPackingList st r
  | .updateManifest r => updatePackingList st r
  | .deleteManifest id => deletePackingList st id
  | .submitQC r => submitQualityCheck st r
  | .adjustStock i q user => adjustStockQuantity st i q user

/-- Running a sequence of operations, keeping the state each one leaves
behind whether it succeeds or fails. -/
def applyOps (st : GState) (ops : List LedgerOp) : GState :=
  ops.foldl (fun s op => (applyOp s op).1) st

/-- Quantity visible at a (product, store) key: the quantity of the first
matching entry, 0 when no entry exists. -/
def quantityAt (l : List StockEntry) (p : ProductId) (s : StoreId) : ℚ :=
  match findStock l p s with
  | some e => e.quantity
  | none => 0

/-- Every persisted entry passes the modelled schema validators. -/
def StocksOk (l : List StockEntry) : Bool := l.all stockSaveOk

/-- Concrete fixtures used by the closed counterexample and witness
statements. -/
def itemA : Item :=
  { id := 1, name := "A", unitPrice := 100, currency := "INR",
    quantity := 12, damagedQuantity := 0, availableQuantity := 0,
    qcStatus := "pending", status := "pending_qc" }

def itemB : Item :=
  { id := 2, name := "B", unitPrice := 7, currency := "INR", quantity := 0,
    damagedQuantity := 0, availableQuantity := 0, qcStatus := "pending",
    status := "pending_qc" }

def itemAED : Item :=
  { id := 3, name := "C", unitPrice := 100, currency := "AED",
    quantity := 0, damagedQuantity := 0, availableQuantity := 0,
    qcStatus := "pending", status := "pending_qc" }

def entryA : StockEntry :=
  { id := 10, product := 1, store := 5, quantity := 5, margin := 0,
    currency := "INR", unitPrice := 100,
    lastUpdatedBy := none }

def entryB : StockEntry :=
  { id := 11, product := 2, store := 5, quantity := 9, margin := 0,
    currency := "INR", unitPrice := 7,
    lastUpdatedBy := none }

def entryC : StockEntry :=
  { id := 12, product := 3, store := 5, quantity := 4, margin := 0,
    currency := "INR", unitPrice := 100,
    lastUpdatedBy := none }

def lineA5 : NormalizedInvoiceItem :=
  { item := 1, description := "A", quantity := 5, unitPrice := 100,
    discount := 0, vat := 0, vatAmount := 0, totalPrice := 500 }

def inv0 : SalesInvoice :=
  { id := 0, invoiceNumber := "N1", customer := 1, store := 5,
    subTotal := 500, discountTotal := 0, vatTotal := 0, netAmount := 500,
    taxAmount := 0, items := [lineA5] }

def plDraft : PackingList :=
  { id := 0, boxNumber := "B1", items := [{ product := 3, quantity := 10 }],
    store := some 5, toStore := some 6, currency := "INR",
    exchangeRate := some (mkRat 11 250), status := "pending",
    approvedBy := none }

def plApproved : PackingList := { plDraft with status := "approved" }

def plBase : PackingList :=
  { plDraft with items := [{ product := 1, quantity := 10 }],
                 currency := "AED" }

def store5 : Store :=
  { id := 5, purchaser := some "ROLE_PURCHASER", isActive := true }

def store6 : Store :=
  { id := 6, purchaser := some "ROLE_PURCHASER", isActive := true }

def store7 : Store := { id := 7, purchaser := none, isActive := true }

def baseState : GState :=
  { catalog := [itemA, itemB, itemAED]
    stores := [store5, store6, store7]
    customers := [1]
    invoices := [inv0]
    packingLists := [plDraft]
    stocks := [entryA, entryB, entryC]
    nextStockId := 20
    nextInvoiceId := 1
    nextPLId := 1 }

def stApproved : GState := { baseState with packingLists := [plApproved] }

def stAED : GState := { baseState with packingLists := [plBase] }

def lineB3 : NormalizedInvoiceItem :=
  { item := 2, description := "B", quantity := 3, unitPrice := 7,
    discount := 0, vat := 0, vatAmount := 0, totalPrice := 21 }

def invNoStock : SalesInvoice :=
  { id := 1, invoiceNumber := "N2", customer := 1, store := 6,
    subTotal := 521, discountTotal := 0, vatTotal := 0, netAmount := 521,
    taxAmount := 0, items := [lineA5, lineB3] }

def plC10 : PackingList :=
  { id := 1, boxNumber := "B2",
    items := [{ product := 1, quantity := 4 },
              { product := 2, quantity := 6 }],
    store := some 6, toStore := none, currency := "INR",
    exchangeRate := none, status := "pending", approvedBy := none }

def stC10 : GState :=
  { baseState with
      invoices := [inv0, invNoStock]
      packingLists := [plDraft, plC10]
      nextInvoiceId := 2
      nextPLId := 2 }

def rawA5 : RawInvoiceItem :=
  { itemId := 1, description := none, quantity := 5, unitPrice := 100,
    discount := none, vat := none }

def normA5 : NormalizedInvoiceItem :=
  { item := 1, description := "A", quantity := 5, unitPrice := 100,
    discount := 0, vat := 0, vatAmount := 0, totalPrice := 500 }

def reqC10 : UpdateInvoiceReq :=
  { id := 1, items := some [rawA5], taxAmount := none, user := none }

def reqPL10 : UpdatePLReq :=
  { id := 1, items := some [{ productId := 1, quantity := 4 }],
    storeId := some 6, toStoreId := none, currency := none,
    exchangeRate := none, status := none, user := none }

def reqApprove : UpdatePLReq :=
  { id := 0, items := none, storeId := none, toStoreId := none,
    currency := none, exchangeRate := none, status := some "approved",
    user := some 9 }

def reqC9 : UpdateInvoiceReq :=
  { id := 0, items := none, taxAmount := some 33, user := none }

def rawA8 : RawInvoiceItem :=
  { itemId := 1, description := none, quantity := 8, unitPrice := 100,
    discount := none, vat := none }

def rawB2 : RawInvoiceItem :=
  { itemId := 2, description := none, quantity := 2, unitPrice := 7,
    discount := none, vat := none }

def reqC6 : UpdateInvoiceReq :=
  { id := 0, items := some [rawA8, rawB2], taxAmount := none,
    user := none }

def normA8 : NormalizedInvoiceItem :=
  { item := 1, description := "A", quantity := 8, unitPrice := 100,
    discount := 0, vat := 0, vatAmount := 0, totalPrice := 800 }

def normB2 : NormalizedInvoiceItem :=
  { item := 2, description := "B", quantity := 2, unitPrice := 7,
    discount := 0, vat := 0, vatAmount := 0, totalPrice := 14 }

def reqPL6 : UpdatePLReq :=
  { id := 0, items := some [{ productId := 3, quantity := 12 }],
    storeId := some 5, toStoreId := none, currency := none,
    exchangeRate := none, status := none, user := none }

def raw358 : RawInvoiceItem :=
  { itemId := 1, description := none, quantity := 3, unitPrice := 50,
    discount := some 10, vat := some 5 }

def out358 : NormalizedInvoiceItem :=
  { item := 1, description := "A", quantity := 3, unitPrice := 50,
    discount := 15, vat := 5, vatAmount := 27/4, totalPrice := 567/4 }

def reqQC : QCReq :=
  { productId := 1, status := "approved", damagedQuantity := some 2,
    user := some 3 }

/-- The line-valuation equations of the specification, relating one raw
request line to its normalized form: gross = quantity * unitPrice,
discountAmount = gross * discountPercent / 100, vatAmount =
(gross - discountAmount) * vatPercent / 100, totalPrice =
(gross - discountAmount) + vatAmount. -/
def lineTotalsSpec (raw : RawInvoiceItem)
    (out : NormalizedInvoiceItem) : Prop :=
  out.quantity = raw.quantity ∧
  out.unitPrice = raw.unitPrice ∧
  out.discount = raw.quantity * raw.unitPrice * (raw.discount.getD 0) / 100 ∧
  out.vatAmount =
    (raw.quantity * raw.unitPrice - out.discount) * (raw.vat.getD 0) / 100 ∧
  out.totalPrice =
    (raw.quantity * raw.unitPrice - out.discount) + out.vatAmount

end Inventory

namespace Inventory

theorem mem_replaceStock {l : List StockEntry} {p : ProductId} {s : StoreId}
    {e x : StockEntry} (hx : x ∈ replaceStock l p s e) : x ∈ l ∨ x = e := by
  induction l with
  | nil => simp [replaceStock] at hx
  | cons a as ih =>
      by_cases h : (a.product == p && a.store == s) = true
      · rw [replaceStock, if_pos h] at hx
        rcases List.mem_cons.mp hx with h1 | h1
        · exact Or.inr h1
        · exact Or.inl (List.mem_cons_of_mem _ h1)
      · rw [replaceStock, if_neg h] at hx
        rcases List.mem_cons.mp hx with h1 | h1
        · exact Or.inl (h1 ▸ List.mem_cons_self _ _)
        · rcases ih h1 with h2 | h2
          · exact Or.inl (List.mem_cons_of_mem _ h2)
          · exact Or.inr h2

theorem mem_replaceStockById {l : List StockEntry} {i : Nat}
    {e x : StockEntry} (hx : x ∈ replaceStockById l i e) :
    x ∈ l ∨ x = e := by
  induction l with
  | nil => simp [replaceStockById] at hx
  | cons a as ih =>
      by_cases h : (a.id == i) = true
      · rw [replaceStockById, if_pos h] at hx
        rcases List.mem_cons.mp hx with h1 | h1
        · exact Or.inr h1
        · exact Or.inl (List.mem_cons_of_mem _ h1)
      · rw [replaceStockById, if_neg h] at hx
        rcases List.mem_cons.mp hx with h1 | h1
        · exact Or.inl (h1 ▸ List.mem_cons_self _ _)
        · rcases ih h1 with h2 | h2
          · exact Or.inl (List.mem_cons_of_mem _ h2)
          · exact Or.inr h2

theorem stocksOk_replace {l : List StockEntry} {p : ProductId} {s : StoreId}
    {e : StockEntry} (hl : StocksOk l = true) (he : stockSaveOk e = true) :
    StocksOk (replaceStock l p s e) = true := by
  rw [StocksOk, List.all_eq_true]
  intro x hx
  rcases mem_replaceStock hx with h | h
  · exact (List.all_eq_true.mp hl) x h
  · exact h ▸ he

theorem stocksOk_replaceById {l : List StockEntry} {i : Nat}
    {e : StockEntry} (hl : StocksOk l = true) (he : stockSaveOk e = true) :
    StocksOk (replaceStockById l i e) = true := by
  rw [StocksOk, List.all_eq_true]
  intro x hx
  rcases mem_replaceStockById hx with h | h
  · exact (List.all_eq_true.mp hl) x h
  · exact h ▸ he

theorem stocksOk_append {l : List StockEntry} {e : StockEntry}
    (hl : StocksOk l = true) (he : stockSaveOk e = true) :
    StocksOk (l ++ [e]) = true := by
  rw [StocksOk, List.all_eq_true]
  intro x hx
  rcases List.mem_append.mp hx with h | h
  · exact (List.all_eq_true.mp hl) x h
  · exact (List.mem_singleton.mp h) ▸ he

theorem stocksOk_nonneg {l : List StockEntry} (hl : StocksOk l = true)
    {e : StockEntry} (he : e ∈ l) : 0 ≤ e.quantity := by
  have h := (List.all_eq_true.mp hl) e he
  rw [stockSaveOk, Bool.and_eq_true] at h
  exact of_decide_eq_true h.1

theorem findStock_cons_pos {a : StockEntry} {l : List StockEntry}
    {q : ProductId} {t : StoreId} (h : (a.product == q && a.store == t) = true) :
    findStock (a :: l) q t = some a := by
  rw [findStock]
  exact List.find?_cons_of_pos (p := fun e => e.product == q && e.store == t) l h

theorem findStock_cons_neg {a : StockEntry} {l : List StockEntry}
    {q : ProductId} {t : StoreId}
    (h : ¬((a.product == q && a.store == t) = true)) :
    findStock (a :: l) q t = findStock l q t := by
  rw [findStock, findStock]
  exact List.find?_cons_of_neg (p := fun e => e.product == q && e.store == t) l
    (by simpa using h)

theorem findItem_cons_pos {a : Item} {l : List Item} {j : ProductId}
    (h : (a.id == j) = true) : findItem (a :: l) j = some a := by
  rw [findItem]
  exact List.find?_cons_of_pos (p := fun it => it.id == j) l h

theorem findItem_cons_neg {a : Item} {l : List Item} {j : ProductId}
    (h : ¬((a.id == j) = true)) : findItem (a :: l) j = findItem l j := by
  rw [findItem, findItem]
  exact List.find?_cons_of_neg (p := fun it => it.id == j) l (by simpa using h)

theorem findStock_replaceStock_self {l : List StockEntry} {p : ProductId}
    {s : StoreId} {e x : StockEntry} (hfound : findStock l p s = some x)
    (hep : e.product = p) (hes : e.store = s) :
    findStock (replaceStock l p s e) p s = some e := by
  induction l with
  | nil => simp [findStock] at hfound
  | cons a as ih =>
      by_cases h : (a.product == p && a.store == s) = true
      · rw [replaceStock, if_pos h]
        exact findStock_cons_pos (by simp [hep, hes])
      · rw [replaceStock, if_neg h]
        rw [findStock_cons_neg h]
        rw [findStock_cons_neg h] at hfound
        exact ih hfound

theorem findStock_replaceStock_ne {l : List StockEntry} {p q : ProductId}
    {s t : StoreId} {e : StockEntry} (hep : e.product = p)
    (hes : e.store = s) (hne : ¬(q = p ∧ t = s)) :
    findStock (replaceStock l p s e) q t = findStock l q t := by
  induction l with
  | nil => rfl
  | cons a as ih =>
      by_cases h : (a.product == p && a.store == s) = true
      · rw [replaceStock, if_pos h]
        have hanot : ¬((a.product == q && a.store == t) = true) := by
          simp only [Bool.and_eq_true, beq_iff_eq] at h ⊢
          intro hc
          exact hne ⟨by rw [← hc.1, h.1], by rw [← hc.2, h.2]⟩
        have henot : ¬((e.product == q && e.store == t) = true) := by
          simp only [Bool.and_eq_true, beq_iff_eq]
          intro hc
          exact hne ⟨by rw [← hc.1, hep], by rw [← hc.2, hes]⟩
        rw [findStock_cons_neg henot, findStock_cons_neg hanot]
      · rw [replaceStock, if_neg h]
        by_cases ha : (a.product == q && a.store == t) = true
        · rw [findStock_cons_pos ha, findStock_cons_pos ha]
        · rw [findStock_cons_neg ha, findStock_cons_neg ha]
          exact ih

theorem findStock_append (l1 l2 : List StockEntry) (p : ProductId)
    (s : StoreId) :
    findStock (l1 ++ l2) p s =
      ((findStock l1 p s).or (findStock l2 p s)) := by
  induction l1 with
  | nil => rfl
  | cons a as ih =>
      by_cases h : (a.product == p && a.store == s) = true
      · rw [List.cons_append, findStock_cons_pos h, findStock_cons_pos h]
        rfl
      · rw [List.cons_append, findStock_cons_neg h, findStock_cons_neg h]
        exact ih

theorem findItem_replaceItem_ne {catalog : List Item} {i j : ProductId}
    {it : Item} (hit : it.id = i) (hij : ¬(j = i)) :
    findItem (replaceItem catalog i it) j = findItem catalog j := by
  induction catalog with
  | nil => rfl
  | cons a as ih =>
      by_cases h : (a.id == i) = true
      · rw [replaceItem, if_pos h]
        have hanot : ¬((a.id == j) = true) := by
          simp only [beq_iff_eq] at h ⊢
          intro hc
          exact hij (by rw [← hc, h])
        have hitnot : ¬((it.id == j) = true) := by
          simp only [beq_iff_eq]
          intro hc
          exact hij (by rw [← hc, hit])
        rw [findItem_cons_neg hitnot, findItem_cons_neg hanot]
      · rw [replaceItem, if_neg h]
        by_cases ha : (a.id == j) = true
        · rw [findItem_cons_pos ha, findItem_cons_pos ha]
        · rw [findItem_cons_neg ha, findItem_cons_neg ha]
          exact ih

theorem saveStockByKey_stocksOk {l l' : List StockEntry} {p : ProductId}
    {s : StoreId} {e : StockEntry} (hl : StocksOk l = true)
    (h : saveStockByKey l p s e = .ok l') : StocksOk l' = true := by
  rw [saveStockByKey] at h
  by_cases hv : stockSaveOk e = true
  · rw [if_pos hv] at h
    cases h
    exact stocksOk_replace hl hv
  · rw [if_neg hv] at h
    cases h

theorem saveStockById_stocksOk {l l' : List StockEntry} {i : Nat}
    {e : StockEntry} (hl : StocksOk l = true)
    (h : saveStockById l i e = .ok l') : StocksOk l' = true := by
  rw [saveStockById] at h
  by_cases hv : stockSaveOk e = true
  · rw [if_pos hv] at h
    cases h
    exact stocksOk_replaceById hl hv
  · rw [if_neg hv] at h
    cases h

theorem createStock_stocksOk {l l' : List StockEntry} {e : StockEntry}
    (hl : StocksOk l = true) (h : createStock l e = .ok l') :
    StocksOk l' = true := by
  rw [createStock] at h
  by_cases hv : stockSaveOk e = true
  · rw [if_pos hv] at h
    cases h
    exact stocksOk_append hl hv
  · rw [if_neg hv] at h
    cases h

theorem decrementStock_stocksOk {l l' : List StockEntry} {p : ProductId}
    {s : StoreId} {q : ℚ} {u : Option UserId} (hl : StocksOk l = true)
    (h : decrementStock l p s q u = .ok l') : StocksOk l' = true := by
  rw [decrementStock] at h
  split at h
  · cases h
  · split at h
    · cases h
    · exact saveStockByKey_stocksOk hl h

theorem restoreStock_stocksOk {l l' : List StockEntry} {p : ProductId}
    {s : StoreId} {q : ℚ} {u : Option UserId} (hl : StocksOk l = true)
    (h : restoreStock l p s q u = .ok l') : StocksOk l' = true := by
  rw [restoreStock] at h
  split at h
  · cases h
    exact hl
  · exact saveStockByKey_stocksOk hl h

theorem applyDecrements_stocksOk (sid : StoreId) (u : Option UserId) :
    ∀ (items : List (ProductId × ℚ)) (l : List StockEntry),
      StocksOk l = true → StocksOk (applyDecrements l sid u items).1 = true := by
  intro items
  induction items with
  | nil => intro l hl; exact hl
  | cons hd tl ih =>
      intro l hl
      obtain ⟨p, q⟩ := hd
      cases hdec : decrementStock l p sid q u with
      | error e => simp only [applyDecrements, hdec]; exact hl
      | ok s1 =>
          simp only [applyDecrements, hdec]
          exact ih s1 (decrementStock_stocksOk hl hdec)

theorem applyDiffs_stocksOk (sid : StoreId) (u : Option UserId)
    (old : List (ProductId × ℚ)) :
    ∀ (news : List (ProductId × ℚ)) (l : List StockEntry),
      StocksOk l = true → StocksOk (applyDiffs l sid u old news).1 = true := by
  intro news
  induction news with
  | nil => intro l hl; exact hl
  | cons hd tl ih =>
      intro l hl
      obtain ⟨p, q⟩ := hd
      by_cases hd0 : (q - oldQtyOf old p == 0) = true
      · simp only [applyDiffs, hd0, if_true]
        exact ih l hl
      · cases hf : findStock l p sid with
        | none => simp only [applyDiffs, hd0, if_false, hf]; exact hl
        | some stock =>
            by_cases hins : (q - oldQtyOf old p > 0 ∧
                stock.quantity < q - oldQtyOf old p)
            · simp only [applyDiffs, hd0, if_false, hf, if_pos hins]
              exact hl
            · cases hs : saveStockByKey l p sid
                  { stock with
                    quantity := stock.quantity - (q - oldQtyOf old p)
                    lastUpdatedBy := setUser stock.lastUpdatedBy u } with
              | error e =>
                  simp only [applyDiffs, hd0, if_false, hf, if_neg hins, hs]
                  exact hl
              | ok s1 =>
                  simp only [applyDiffs, hd0, if_false, hf, if_neg hins, hs]
                  exact ih s1 (saveStockByKey_stocksOk hl hs)

theorem applyRemovedRestores_stocksOk (sid : StoreId) (u : Option UserId)
    (old : List (ProductId × ℚ)) (processed : List ProductId) :
    ∀ (pending : List ProductId) (l : List StockEntry),
      StocksOk l = true →
      StocksOk (applyRemovedRestores l sid u old processed pending).1 = true := by
  intro pending
  induction pending with
  | nil => intro l hl; exact hl
  | cons p tl ih =>
      intro l hl
      by_cases hp : (processed.contains p) = true
      · simp only [applyRemovedRestores, hp, if_true]
        exact ih l hl
      · cases hr : restoreStock l p sid (oldQtyOf old p) u with
        | error e => simp only [applyRemovedRestores, hp, if_false, hr]; exact hl
        | ok s1 =>
            simp only [applyRemovedRestores, hp, if_false, hr]
            exact ih s1 (restoreStock_stocksOk hl hr)

theorem applyDeleteRestores_stocksOk (sid : StoreId) (u : Option UserId) :
    ∀ (items : List (ProductId × ℚ)) (l : List StockEntry),
      StocksOk l = true →
      StocksOk (applyDeleteRestores l sid u items).1 = true := by
  intro items
  induction items with
  | nil => intro l hl; exact hl
  | cons hd tl ih =>
      intro l hl
      obtain ⟨p, q⟩ := hd
      cases hr : restoreStock l p sid q u with
      | error e => simp only [applyDeleteRestores, hr]; exact hl
      | ok s1 =>
          simp only [applyDeleteRestores, hr]
          exact ih s1 (restoreStock_stocksOk hl hr)

theorem map_pair_ok {x : Except ErrKind (List StockEntry)} {nid : Nat}
    {s1 : List StockEntry} {n1 : Nat}
    (h : x.map (fun l => (l, nid)) = .ok (s1, n1)) : x = .ok s1 := by
  cases x with
  | error e => simp [Except.map] at h
  | ok l =>
      simp only [Except.map, Except.ok.injEq, Prod.mk.injEq] at h
      rw [h.1]

theorem approvalStep_stocksOk {l s1 : List StockEntry} {nid n1 : Nat}
    {dest : StoreId} {p : ProductId} {fc : String} {fp q : ℚ}
    {u : Option UserId} (hl : StocksOk l = true)
    (h : approvalStep l nid dest p fc fp q u = .ok (s1, n1)) :
    StocksOk s1 = true := by
  rw [approvalStep] at h
  cases hfs : findStock l p dest with
  | some d =>
      rw [hfs] at h
      exact saveStockByKey_stocksOk hl (map_pair_ok h)
  | none =>
      rw [hfs] at h
      exact createStock_stocksOk hl (map_pair_ok h)

theorem applyApprovalMoves_stocksOk (dest : StoreId) (currency : String)
    (rate : Option ℚ) (u : Option UserId) :
    ∀ (items : List PLItem) (l : List StockEntry) (catalog : List Item)
      (nid : Nat), StocksOk l = true →
      StocksOk
        (applyApprovalMoves l catalog nid dest currency rate u items).1.1
        = true := by
  intro items
  induction items with
  | nil => intro l catalog nid hl; exact hl
  | cons item tl ih =>
      intro l catalog nid hl
      cases hfi : findItem catalog item.product with
      | none => simp only [applyApprovalMoves, hfi]; exact hl
      | some product =>
          cases hstep : approvalStep l nid dest item.product
              (if currency == "" then "INR" else currency)
              (if currency == "AED" && rateTruthy rate &&
                  product.unitPrice != 0 then
                product.unitPrice * rate.getD 0
              else product.unitPrice)
              item.quantity u with
          | error e =>
              simp only [applyApprovalMoves, hfi, hstep]
              exact hl
          | ok s1n =>
              obtain ⟨s1, n1⟩ := s1n
              simp only [applyApprovalMoves, hfi, hstep]
              exact ih s1 _ n1 (approvalStep_stocksOk hl hstep)

theorem qcFanOut_stocksOk (product : Item) (avail : ℚ) (u : UserId) :
    ∀ (stores : List Store) (l : List StockEntry) (nid : Nat),
      StocksOk l = true →
      StocksOk (qcFanOut l nid product avail u stores).1 = true := by
  intro stores
  induction stores with
  | nil => intro l nid hl; exact hl
  | cons store tl ih =>
      intro l nid hl
      cases hfs : findStock l product.id store.id with
      | none =>
          by_cases hav : (avail > 0)
          · cases hcv : createStock l
                { id := nid
                  product := product.id
                  store := store.id
                  quantity := avail
                  margin := 0
                  currency := if product.currency == "" then "INR"
                              else product.currency
                  unitPrice := product.unitPrice
                  lastUpdatedBy := some u } with
            | error e =>
                simp only [qcFanOut, hfs, if_pos hav, hcv]
                exact hl
            | ok s1 =>
                simp only [qcFanOut, hfs, if_pos hav, hcv]
                exact ih s1 (nid + 1) (createStock_stocksOk hl hcv)
          · simp only [qcFanOut, hfs, if_neg hav]
            exact ih l nid hl
      | some existing =>
          by_cases hav : (avail > 0)
          · cases hsv : saveStockByKey l product.id store.id
                { existing with
                  quantity := existing.quantity + avail
                  lastUpdatedBy := some u } with
            | error e =>
                simp only [qcFanOut, hfs, if_pos hav, hsv]
                exact hl
            | ok s1 =>
                simp only [qcFanOut, hfs, if_pos hav, hsv]
                exact ih s1 nid (saveStockByKey_stocksOk hl hsv)
          · simp only [qcFanOut, hfs, if_neg hav]
            exact ih l nid hl

theorem createSalesInvoice_stocksOk (st : GState) (r : CreateInvoiceReq)
    (hl : StocksOk st.stocks = true) :
    StocksOk (createSalesInvoice st r).1.stocks = true := by
  simp only [createSalesInvoice]
  split
  · exact hl
  · split
    · exact hl
    · split
      · exact hl
      · cases hn : normalizeInvoiceItems st.catalog r.items with
        | error e => simp only []; exact hl
        | ok ns =>
            simp only []
            cases hdec : applyDecrements st.stocks r.storeId r.user
                (ns.map (fun it => (it.item, it.quantity))) with
            | mk s1 oe =>
                have h1 : StocksOk s1 = true := by
                  have h2 := applyDecrements_stocksOk r.storeId r.user
                    (ns.map (fun it => (it.item, it.quantity))) st.stocks hl
                  rw [hdec] at h2
                  exact h2
                cases oe with
                | none => simp only [hdec]; exact h1
                | some e => simp only [hdec]; exact h1

theorem updateSalesInvoice_stocksOk (st : GState) (r : UpdateInvoiceReq)
    (hl : StocksOk st.stocks = true) :
    StocksOk (updateSalesInvoice st r).1.stocks = true := by
  simp only [updateSalesInvoice]
  split
  · exact hl
  · next invoice hinv =>
      cases r.items with
      | none => exact hl
      | some raws =>
          simp only []
          cases hn : normalizeInvoiceItems st.catalog raws with
          | error e => exact hl
          | ok ns =>
              simp only []
              cases hdiff : applyDiffs st.stocks invoice.store r.user
                  (invoiceOldPairs invoice)
                  (ns.map (fun it => (it.item, it.quantity))) with
              | mk s1 oe =>
                  have h1 : StocksOk s1 = true := by
                    have h2 := applyDiffs_stocksOk invoice.store r.user
                      (invoiceOldPairs invoice)
                      (ns.map (fun it => (it.item, it.quantity)))
                      st.stocks hl
                    rw [hdiff] at h2
                    exact h2
                  cases oe with
                  | some e => simp only [hdiff]; exact h1
                  | none =>
                      simp only [hdiff]
                      cases hres : applyRemovedRestores s1 invoice.store
                          r.user (invoiceOldPairs invoice)
                          ((ns.map (fun it => (it.item, it.quantity))).map
                            (fun it => it.1))
                          (mapKeys (invoiceOldPairs invoice)) with
                      | mk s2 oe2 =>
                          have h3 : StocksOk s2 = true := by
                            have h4 := applyRemovedRestores_stocksOk
                              invoice.store r.user
                              (invoiceOldPairs invoice)
                              ((ns.map
                                (fun it => (it.item, it.quantity))).map
                                (fun it => it.1))
                              (mapKeys (invoiceOldPairs invoice)) s1 h1
                            rw [hres] at h4
                            exact h4
                          cases oe2 with
                          | some e => exact h3
                          | none => exact h3

theorem deleteSalesInvoice_stocksOk (st : GState) (id : Nat)
    (u : Option UserId) (hl : StocksOk st.stocks = true) :
    StocksOk (deleteSalesInvoice st id u).1.stocks = true := by
  simp only [deleteSalesInvoice]
  split
  · exact hl
  · next invoice hinv =>
      cases hres : applyDeleteRestores st.stocks invoice.store u
          (invoiceOldPairs invoice) with
      | mk s1 oe =>
          have h1 : StocksOk s1 = true := by
            have h2 := applyDeleteRestores_stocksOk invoice.store u
              (invoiceOldPairs invoice) st.stocks hl
            rw [hres] at h2
            exact h2
          cases oe with
          | some e => simp only [hres]; exact h1
          | none => simp only [hres]; exact h1

theorem createPackingList_stocksOk (st : GState) (r : CreatePLReq)
    (hl : StocksOk st.stocks = true) :
    StocksOk (createPackingList st r).1.stocks = true := by
  simp only [createPackingList]
  split
  · exact hl
  · cases r.storeId with
    | none => exact hl
    | some sid =>
        simp only []
        split
        · exact hl
        · cases hn : normalizePLItems st.catalog r.items with
          | error e => exact hl
          | ok ns =>
              simp only []
              cases hdec : applyDecrements st.stocks sid (some r.user)
                  (ns.map (fun it => (it.product, it.quantity))) with
              | mk s1 oe =>
                  have h1 : StocksOk s1 = true := by
                    have h2 := applyDecrements_stocksOk sid (some r.user)
                      (ns.map (fun it => (it.product, it.quantity)))
                      st.stocks hl
                    rw [hdec] at h2
                    exact h2
                  cases oe with
                  | some e => exact h1
                  | none => exact h1

theorem finishPLUpdate_stocksOk (st : GState) (stocks1 : List StockEntry)
    (pl : PackingList) (r : UpdatePLReq)
    (hl : StocksOk stocks1 = true) :
    StocksOk (finishPLUpdate st stocks1 pl r).1.stocks = true := by
  simp only [finishPLUpdate]
  cases r.status with
  | none => exact hl
  | some stat =>
      simp only []
      split
      · split
        · cases pl.toStore with
          | none => exact hl
          | some dest =>
              simp only []
              cases hmov : applyApprovalMoves stocks1 st.catalog
                  st.nextStockId dest pl.currency pl.exchangeRate r.user
                  pl.items with
              | mk res oe =>
                  obtain ⟨s2, cat2, n2⟩ := res
                  have h1 : StocksOk s2 = true := by
                    have h2 := applyApprovalMoves_stocksOk dest pl.currency
                      pl.exchangeRate r.user pl.items stocks1 st.catalog
                      st.nextStockId hl
                    rw [hmov] at h2
                    exact h2
                  cases oe with
                  | some e => exact h1
                  | none => exact h1
        · exact hl
      · exact hl

theorem updatePackingList_stocksOk (st : GState) (r : UpdatePLReq)
    (hl : StocksOk st.stocks = true) :
    StocksOk (updatePackingList st r).1.stocks = true := by
  simp only [updatePackingList]
  split
  · exact hl
  · next pl0 hpl =>
      cases r.items with
      | none => exact finishPLUpdate_stocksOk _ _ _ _ hl
      | some raws =>
          simp only []
          cases hn : normalizePLItems st.catalog raws with
          | error e => exact hl
          | ok newItems =>
              simp only []
              cases r.storeId with
              | none => exact finishPLUpdate_stocksOk _ _ _ _ hl
              | some sid =>
                  simp only []
                  cases hdiff : applyDiffs st.stocks sid r.user
                      (plOldPairs pl0)
                      (newItems.map (fun it => (it.product, it.quantity)))
                      with
                  | mk s1 oe =>
                      have h1 : StocksOk s1 = true := by
                        have h2 := applyDiffs_stocksOk sid r.user
                          (plOldPairs pl0)
                          (newItems.map
                            (fun it => (it.product, it.quantity)))
                          st.stocks hl
                        rw [hdiff] at h2
                        exact h2
                      cases oe with
                      | some e => simp only [hdiff]; exact h1
                      | none =>
                          simp only [hdiff]
                          cases hres : applyRemovedRestores s1 sid r.user
                              (plOldPairs pl0)
                              ((newItems.map
                                (fun it => (it.product, it.quantity))).map
                                (fun it => it.1))
                              (mapKeys (plOldPairs pl0)) with
                          | mk s2 oe2 =>
                              have h3 : StocksOk s2 = true := by
                                have h4 := applyRemovedRestores_stocksOk
                                  sid r.user (plOldPairs pl0)
                                  ((newItems.map
                                    (fun it => (it.product,
                                      it.quantity))).map
                                    (fun it => it.1))
                                  (mapKeys (plOldPairs pl0)) s1 h1
                                rw [hres] at h4
                                exact h4
                              cases oe2 with
                              | some e => exact h3
                              | none =>
                                  exact finishPLUpdate_stocksOk _ _ _ _ h3

theorem deletePackingList_stocksOk (st : GState) (id : Nat)
    (hl : StocksOk st.stocks = true) :
    StocksOk (deletePackingList st id).1.stocks = true := by
  simp only [deletePackingList]
  split
  · exact hl
  · exact hl

theorem submitQualityCheck_stocksOk (st : GState) (r : QCReq)
    (hl : StocksOk st.stocks = true) :
    StocksOk (submitQualityCheck st r).1.stocks = true := by
  simp only [submitQualityCheck]
  cases r.user with
  | none => exact hl
  | some u =>
      simp only []
      split
      · exact hl
      · next product hfi =>
          split
          · exact hl
          · split
            · exact hl
            · split
              · cases hfan : qcFanOut st.stocks st.nextStockId product
                    (max 0 (product.quantity - r.damagedQuantity.getD 0)) u
                    (purchaserStores st.stores) with
                | mk s1 n1 =>
                    have h1 : StocksOk s1 = true := by
                      have h2 := qcFanOut_stocksOk product
                        (max 0 (product.quantity -
                          r.damagedQuantity.getD 0)) u
                        (purchaserStores st.stores) st.stocks
                        st.nextStockId hl
                      rw [hfan] at h2
                      exact h2
                    simp only [hfan]
                    exact h1
              · exact hl

theorem adjustStockQuantity_stocksOk (st : GState) (i : Nat)
    (q : Option ℚ) (u : Option UserId) (hl : StocksOk st.stocks = true) :
    StocksOk (adjustStockQuantity st i q u).1.stocks = true := by
  simp only [adjustStockQuantity]
  cases u with
  | none => exact hl
  | some u0 =>
      simp only []
      split
      · exact hl
      · next stock hst =>
          cases q with
          | none => exact hl
          | some q0 =>
              simp only []
              cases hs : saveStockById st.stocks i
                  { stock with quantity := q0
                               lastUpdatedBy := some u0 } with
              | error e => simp only [hs]; exact hl
              | ok s1 =>
                  simp only [hs]
                  exact saveStockById_stocksOk hl hs

theorem applyOp_stocksOk (st : GState) (op : LedgerOp)
    (hl : StocksOk st.stocks = true) :
    StocksOk (applyOp st op).1.stocks = true := by
  cases op with
  | createInvoice r => exact createSalesInvoice_stocksOk st r hl
  | updateInvoice r => exact updateSalesInvoice_stocksOk st r hl
  | deleteInvoice id user => exact deleteSalesInvoice_stocksOk st id user hl
  | createManifest r => exact createPackingList_stocksOk st r hl
  | updateManifest r => exact updatePackingList_stocksOk st r hl
  | deleteManifest id => exact deletePackingList_stocksOk st id hl
  | submitQC r => exact submitQualityCheck_stocksOk st r hl
  | adjustStock i q user => exact adjustStockQuantity_stocksOk st i q user hl

theorem applyOps_stocksOk (ops : List LedgerOp) :
    ∀ (st : GState), StocksOk st.stocks = true →
      StocksOk (applyOps st ops).stocks = true := by
  induction ops with
  | nil => intro st hl; exact hl
  | cons op tl ih =>
      intro st hl
      rw [applyOps, List.foldl_cons]
      exact ih (applyOp st op).1 (applyOp_stocksOk st op hl)

theorem findStock_some_key {l : List StockEntry} {p : ProductId}
    {s : StoreId} {e : StockEntry} (hf : findStock l p s = some e) :
    e.product = p ∧ e.store = s := by
  have h := List.find?_some hf
  simpa only [Bool.and_eq_true, beq_iff_eq] using h

theorem findStock_some_mem {l : List StockEntry} {p : ProductId}
    {s : StoreId} {e : StockEntry} (hf : findStock l p s = some e) :
    e ∈ l :=
  List.mem_of_find?_eq_some hf

theorem stockSaveOk_iff {e : StockEntry} :
    stockSaveOk e = true ↔
      (0 ≤ e.quantity ∧ (e.currency = "INR" ∨ e.currency = "AED")) := by
  rw [stockSaveOk]
  simp [Bool.and_eq_true, Bool.or_eq_true, beq_iff_eq, decide_eq_true_iff]

theorem stocksOk_currency {l : List StockEntry} (hl : StocksOk l = true)
    {e : StockEntry} (he : e ∈ l) :
    e.currency = "INR" ∨ e.currency = "AED" :=
  (stockSaveOk_iff.mp ((List.all_eq_true.mp hl) e he)).2

/-- Successful conditional decrement: with an existing valid entry holding
at least the requested quantity, the entry is saved with quantity reduced
by the delta. -/
theorem decrementStock_spec {l : List StockEntry} {p : ProductId}
    {s : StoreId} {q : ℚ} {u : Option UserId} {e : StockEntry}
    (hf : findStock l p s = some e) (hok : stockSaveOk e = true)
    (hq : q ≤ e.quantity) :
    decrementStock l p s q u =
      .ok (replaceStock l p s
        { e with quantity := e.quantity - q
                 lastUpdatedBy := setUser e.lastUpdatedBy u }) := by
  have hx : stockSaveOk
      { e with quantity := e.quantity - q
               lastUpdatedBy := setUser e.lastUpdatedBy u } = true :=
    stockSaveOk_iff.mpr ⟨sub_nonneg.mpr hq, (stockSaveOk_iff.mp hok).2⟩
  simp only [decrementStock, hf]
  rw [if_neg (not_lt.mpr hq), saveStockByKey, if_pos hx]

theorem decrementStock_insufficient {l : List StockEntry} {p : ProductId}
    {s : StoreId} {q : ℚ} {u : Option UserId} {e : StockEntry}
    (hf : findStock l p s = some e) (hq : e.quantity < q) :
    decrementStock l p s q u = .error (.insufficientStock e.quantity q) := by
  simp only [decrementStock, hf]
  rw [if_pos hq]

theorem decrementStock_absent {l : List StockEntry} {p : ProductId}
    {s : StoreId} {q : ℚ} {u : Option UserId}
    (hf : findStock l p s = none) :
    decrementStock l p s q u = .error .stockNotFound := by
  simp only [decrementStock, hf]

/-- Successful restoration: with an existing valid entry and a resulting
quantity that passes validation, the entry is saved with quantity grown by
the delta. -/
theorem restoreStock_spec {l : List StockEntry} {p : ProductId}
    {s : StoreId} {q : ℚ} {u : Option UserId} {e : StockEntry}
    (hf : findStock l p s = some e) (hok : stockSaveOk e = true)
    (hq : 0 ≤ e.quantity + q) :
    restoreStock l p s q u =
      .ok (replaceStock l p s
        { e with quantity := e.quantity + q
                 lastUpdatedBy := setUser e.lastUpdatedBy u }) := by
  have hx : stockSaveOk
      { e with quantity := e.quantity + q
               lastUpdatedBy := setUser e.lastUpdatedBy u } = true :=
    stockSaveOk_iff.mpr ⟨hq, (stockSaveOk_iff.mp hok).2⟩
  simp only [restoreStock, hf]
  rw [saveStockByKey, if_pos hx]

theorem restoreStock_absent {l : List StockEntry} {p : ProductId}
    {s : StoreId} {q : ℚ} {u : Option UserId}
    (hf : findStock l p s = none) : restoreStock l p s q u = .ok l := by
  simp only [restoreStock, hf]

theorem quantityAt_of_findStock {l : List StockEntry} {p : ProductId}
    {s : StoreId} {e : StockEntry} (hf : findStock l p s = some e) :
    quantityAt l p s = e.quantity := by
  rw [quantityAt, hf]

theorem quantityAt_congr {l l' : List StockEntry} {p : ProductId}
    {s : StoreId} (h : findStock l' p s = findStock l p s) :
    quantityAt l' p s = quantityAt l p s := by
  rw [quantityAt, quantityAt, h]

/-- Functional specification of the diff loop: with pairwise-distinct
products and, per nonzero diff, an existing entry holding at least the
diff, the loop succeeds, touches no other key, and shifts the quantity of
every listed product down by its diff. -/
theorem applyDiffs_spec (sid : StoreId) (u : Option UserId)
    (old : List (ProductId × ℚ)) :
    ∀ (news : List (ProductId × ℚ)) (l : List StockEntry),
      StocksOk l = true →
      (news.map (fun it => it.1)).Nodup →
      (∀ pq ∈ news, pq.2 - oldQtyOf old pq.1 ≠ 0 →
        ∃ e, findStock l pq.1 sid = some e ∧
          pq.2 - oldQtyOf old pq.1 ≤ e.quantity) →
      ∃ l', applyDiffs l sid u old news = (l', none) ∧
        StocksOk l' = true ∧
        (∀ (q0 : ProductId) (t : StoreId),
          (¬ t = sid ∨ q0 ∉ news.map (fun it => it.1)) →
          findStock l' q0 t = findStock l q0 t) ∧
        (∀ pq ∈ news,
          quantityAt l' pq.1 sid =
            quantityAt l pq.1 sid - (pq.2 - oldQtyOf old pq.1)) := by
  intro news
  induction news with
  | nil =>
      intro l hl _ _
      exact ⟨l, rfl, hl, fun _ _ _ => rfl,
        fun _ h => absurd h (List.not_mem_nil _)⟩
  | cons hd tl ih =>
      intro l hl hnd hex
      obtain ⟨p, q⟩ := hd
      rw [List.map_cons, List.nodup_cons] at hnd
      obtain ⟨hpn, hndtl⟩ := hnd
      by_cases hd0 : ((q - oldQtyOf old p == 0) = true)
      · have hdz : q - oldQtyOf old p = 0 := by simpa using hd0
        obtain ⟨l', hrun, hl', hframe, hvals⟩ :=
          ih l hl hndtl (fun pq hpq => hex pq (List.mem_cons_of_mem _ hpq))
        refine ⟨l', ?_, hl', ?_, ?_⟩
        · rw [applyDiffs, if_pos hd0]
          exact hrun
        · intro q0 t ht
          apply hframe
          rcases ht with h | h
          · exact Or.inl h
          · exact Or.inr (fun hc =>
              h (by rw [List.map_cons]; exact List.mem_cons_of_mem _ hc))
        · intro pq hpq
          rcases List.mem_cons.mp hpq with h | h
          · rw [h]
            have hun : findStock l' p sid = findStock l p sid :=
              hframe p sid (Or.inr hpn)
            rw [quantityAt_congr hun, hdz, sub_zero]
          · exact hvals pq h
      · have hdne : q - oldQtyOf old p ≠ 0 := by simpa using hd0
        obtain ⟨e, hf, hle⟩ := hex (p, q) (List.mem_cons_self _ _) hdne
        obtain ⟨hkp, hks⟩ := findStock_some_key hf
        have heok : stockSaveOk e = true :=
          (List.all_eq_true.mp hl) e (findStock_some_mem hf)
        have hins : ¬(q - oldQtyOf old p > 0 ∧
            e.quantity < q - oldQtyOf old p) := by
          rintro ⟨h1, h2⟩
          exact absurd hle (not_le.mpr h2)
        have hx : stockSaveOk
            { e with quantity := e.quantity - (q - oldQtyOf old p)
                     lastUpdatedBy := setUser e.lastUpdatedBy u } = true :=
          stockSaveOk_iff.mpr
            ⟨sub_nonneg.mpr hle, (stockSaveOk_iff.mp heok).2⟩
        have hsv : saveStockByKey l p sid
            { e with quantity := e.quantity - (q - oldQtyOf old p)
                     lastUpdatedBy := setUser e.lastUpdatedBy u } =
            .ok (replaceStock l p sid
              { e with quantity := e.quantity - (q - oldQtyOf old p)
                       lastUpdatedBy := setUser e.lastUpdatedBy u }) := by
          rw [saveStockByKey, if_pos hx]
        set e1 : StockEntry :=
          { e with quantity := e.quantity - (q - oldQtyOf old p)
                   lastUpdatedBy := setUser e.lastUpdatedBy u } with he1
        set s1 := replaceStock l p sid e1 with hs1
        have hl1 : StocksOk s1 = true := stocksOk_replace hl hx
        have hframe1 : ∀ (q0 : ProductId) (t : StoreId),
            ¬(q0 = p ∧ t = sid) →
            findStock s1 q0 t = findStock l q0 t := by
          intro q0 t h
          exact findStock_replaceStock_ne hkp hks h
        have hself1 : findStock s1 p sid = some e1 :=
          findStock_replaceStock_self hf hkp hks
        obtain ⟨l', hrun, hl', hframe, hvals⟩ :=
          ih s1 hl1 hndtl (by
            intro pq hpq hne
            obtain ⟨e2, hf2, hle2⟩ :=
              hex pq (List.mem_cons_of_mem _ hpq) hne
            have hp1 : ¬(pq.1 = p ∧ sid = sid) := by
              rintro ⟨hc, -⟩
              exact hpn (hc ▸ List.mem_map_of_mem (fun it => it.1) hpq)
            exact ⟨e2, by rw [hframe1 pq.1 sid hp1]; exact hf2, hle2⟩)
        refine ⟨l', ?_, hl', ?_, ?_⟩
        · rw [applyDiffs, if_neg hd0]
          simp only [hf, if_neg hins, hsv]
          exact hrun
        · intro q0 t ht
          have h1 : findStock l' q0 t = findStock s1 q0 t := by
            apply hframe
            rcases ht with h | h
            · exact Or.inl h
            · exact Or.inr (fun hc =>
                h (by rw [List.map_cons]; exact List.mem_cons_of_mem _ hc))
          have h2 : findStock s1 q0 t = findStock l q0 t := by
            apply hframe1
            rintro ⟨hq0, hts⟩
            rcases ht with h | h
            · exact h hts
            · exact h (by rw [List.map_cons, hq0]; exact List.mem_cons_self _ _)
          rw [h1, h2]
        · intro pq hpq
          rcases List.mem_cons.mp hpq with h | h
          · rw [h]
            have hun : findStock l' p sid = findStock s1 p sid :=
              hframe p sid (Or.inr hpn)
            rw [quantityAt_congr hun, quantityAt_of_findStock hself1,
              quantityAt_of_findStock hf]
          · have h1 := hvals pq h
            have hp1 : ¬(pq.1 = p ∧ sid = sid) := by
              rintro ⟨hc, -⟩
              exact hpn (hc ▸ List.mem_map_of_mem (fun it => it.1) h)
            rw [h1, quantityAt_congr (hframe1 pq.1 sid hp1)]

/-- Functional specification of the removed-items loop: pending keys found
in the processed set are untouched; a pending key outside it is restored by
its old quantity when its entry exists and silently skipped when it does
not. -/
theorem applyRemovedRestores_spec (sid : StoreId) (u : Option UserId)
    (old : List (ProductId × ℚ)) (processed : List ProductId) :
    ∀ (pending : List ProductId) (l : List StockEntry),
      StocksOk l = true → pending.Nodup →
      (∀ p ∈ pending, p ∉ processed → 0 ≤ oldQtyOf old p) →
      ∃ l', applyRemovedRestores l sid u old processed pending =
          (l', none) ∧
        StocksOk l' = true ∧
        (∀ (q0 : ProductId) (t : StoreId), (¬ t = sid ∨ q0 ∉ pending) →
          findStock l' q0 t = findStock l q0 t) ∧
        (∀ p ∈ pending, p ∈ processed →
          findStock l' p sid = findStock l p sid) ∧
        (∀ p ∈ pending, p ∉ processed →
          (findStock l p sid = none → findStock l' p sid = none) ∧
          (∀ e, findStock l p sid = some e →
            quantityAt l' p sid = e.quantity + oldQtyOf old p)) := by
  intro pending
  induction pending with
  | nil =>
      intro l hl _ _
      exact ⟨l, rfl, hl, fun _ _ _ => rfl,
        fun _ h => absurd h (List.not_mem_nil _),
        fun _ h => absurd h (List.not_mem_nil _)⟩
  | cons p tl ih =>
      intro l hl hnd hq
      rw [List.nodup_cons] at hnd
      obtain ⟨hpn, hndtl⟩ := hnd
      by_cases hp : ((processed.contains p) = true)
      · have hpmem : p ∈ processed := by simpa using hp
        obtain ⟨l', hrun, hl', hframe, hproc, hrest⟩ :=
          ih l hl hndtl (fun x hx => hq x (List.mem_cons_of_mem _ hx))
        refine ⟨l', ?_, hl', ?_, ?_, ?_⟩
        · rw [applyRemovedRestores, if_pos hp]
          exact hrun
        · intro q0 t ht
          apply hframe
          rcases ht with h | h
          · exact Or.inl h
          · exact Or.inr (fun hc => h (List.mem_cons_of_mem _ hc))
        · intro x hx hxp
          rcases List.mem_cons.mp hx with h | h
          · rw [h]
            exact hframe p sid (Or.inr hpn)
          · exact hproc x h hxp
        · intro x hx hxp
          rcases List.mem_cons.mp hx with h | h
          · exact absurd (h ▸ hpmem) hxp
          · exact hrest x h hxp
      · have hpm : p ∉ processed := by simpa using hp
        cases hfp : findStock l p sid with
        | none =>
            obtain ⟨l', hrun, hl', hframe, hproc, hrest⟩ :=
              ih l hl hndtl (fun x hx => hq x (List.mem_cons_of_mem _ hx))
            refine ⟨l', ?_, hl', ?_, ?_, ?_⟩
            · rw [applyRemovedRestores, if_neg hp, restoreStock_absent hfp]
              exact hrun
            · intro q0 t ht
              apply hframe
              rcases ht with h | h
              · exact Or.inl h
              · exact Or.inr (fun hc => h (List.mem_cons_of_mem _ hc))
            · intro x hx hxp
              rcases List.mem_cons.mp hx with h | h
              · exact absurd (h ▸ hxp) hpm
              · exact hproc x h hxp
            · intro x hx hxp
              rcases List.mem_cons.mp hx with h | h
              · subst h
                constructor
                · intro _
                  rw [hframe x sid (Or.inr hpn)]
                  exact hfp
                · intro e he
                  rw [hfp] at he
                  cases he
              · exact hrest x h hxp
        | some e =>
            obtain ⟨hkp, hks⟩ := findStock_some_key hfp
            have heok : stockSaveOk e = true :=
              (List.all_eq_true.mp hl) e (findStock_some_mem hfp)
            have hq0 : 0 ≤ oldQtyOf old p :=
              hq p (List.mem_cons_self _ _) hpm
            have hsum : 0 ≤ e.quantity + oldQtyOf old p :=
              add_nonneg (stockSaveOk_iff.mp heok).1 hq0
            have hres := restoreStock_spec (u := u) hfp heok hsum
            set e1 : StockEntry :=
              { e with quantity := e.quantity + oldQtyOf old p
                       lastUpdatedBy := setUser e.lastUpdatedBy u } with he1
            set s1 := replaceStock l p sid e1 with hs1
            have hx : stockSaveOk e1 = true :=
              stockSaveOk_iff.mpr ⟨hsum, (stockSaveOk_iff.mp heok).2⟩
            have hl1 : StocksOk s1 = true := stocksOk_replace hl hx
            have hframe1 : ∀ (q0 : ProductId) (t : StoreId),
                ¬(q0 = p ∧ t = sid) →
                findStock s1 q0 t = findStock l q0 t := by
              intro q0 t h
              exact findStock_replaceStock_ne hkp hks h
            have hself1 : findStock s1 p sid = some e1 :=
              findStock_replaceStock_self hfp hkp hks
            obtain ⟨l', hrun, hl', hframe, hproc, hrest⟩ :=
              ih s1 hl1 hndtl (fun x hx => hq x (List.mem_cons_of_mem _ hx))
            refine ⟨l', ?_, hl', ?_, ?_, ?_⟩
            · rw [applyRemovedRestores, if_neg hp, hres]
              exact hrun
            · intro q0 t ht
              have h1 : findStock l' q0 t = findStock s1 q0 t := by
                apply hframe
                rcases ht with h | h
                · exact Or.inl h
                · exact Or.inr (fun hc => h (List.mem_cons_of_mem _ hc))
              have h2 : findStock s1 q0 t = findStock l q0 t := by
                apply hframe1
                rintro ⟨hq1, hts⟩
                rcases ht with h | h
                · exact h hts
                · exact h (hq1 ▸ List.mem_cons_self _ _)
              rw [h1, h2]
            · intro x hx hxp
              rcases List.mem_cons.mp hx with h | h
              · exact absurd (h ▸ hxp) hpm
              · have h1 := hproc x h hxp
                have h2 : findStock s1 x sid = findStock l x sid := by
                  apply hframe1
                  rintro ⟨hq1, -⟩
                  exact hpn (hq1 ▸ h)
                rw [h1, h2]
            · intro x hx hxp
              rcases List.mem_cons.mp hx with h | h
              · subst h
                constructor
                · intro hc
                  rw [hfp] at hc
                  cases hc
                · intro e2 he2
                  rw [hfp] at he2
                  cases he2
                  have hun : findStock l' x sid = findStock s1 x sid :=
                    hframe x sid (Or.inr hpn)
                  rw [quantityAt_congr hun, quantityAt_of_findStock hself1]
              · have h1 := hrest x h hxp
                have h2 : findStock s1 x sid = findStock l x sid := by
                  apply hframe1
                  rintro ⟨hq1, -⟩
                  exact hpn (hq1 ▸ h)
                constructor
                · intro hc
                  exact (h2 ▸ h1.1) (h2 ▸ hc)
                · intro e2 he2
                  have := h1.2 e2 (by rw [h2]; exact he2)
                  exact this

theorem findInvoice_some_key {l : List SalesInvoice} {i : Nat}
    {inv : SalesInvoice} (hf : findInvoice l i = some inv) : inv.id = i := by
  have h := List.find?_some hf
  simpa only [beq_iff_eq] using h

theorem findInvoice_replace_self {l : List SalesInvoice} {i : Nat}
    {inv inv' : SalesInvoice} (hf : findInvoice l i = some inv)
    (hid : inv'.id = i) :
    findInvoice (replaceInvoice l i inv') i = some inv' := by
  induction l with
  | nil => simp [findInvoice] at hf
  | cons a as ih =>
      by_cases h : (a.id == i) = true
      · rw [replaceInvoice, if_pos h, findInvoice]
        exact List.find?_cons_of_pos
          (p := fun (x : SalesInvoice) => x.id == i) as (by simpa using hid)
      · rw [replaceInvoice, if_neg h]
        rw [findInvoice, List.find?_cons_of_neg
          (p := fun (x : SalesInvoice) => x.id == i) _ (by simpa using h)]
        rw [findInvoice, List.find?_cons_of_neg
          (p := fun (x : SalesInvoice) => x.id == i) _
          (by simpa using h)] at hf
        exact ih hf

theorem findPL_some_key {l : List PackingList} {i : Nat}
    {pl : PackingList} (hf : findPL l i = some pl) : pl.id = i := by
  have h := List.find?_some hf
  simpa only [beq_iff_eq] using h

theorem findPL_replace_self {l : List PackingList} {i : Nat}
    {pl pl' : PackingList} (hf : findPL l i = some pl) (hid : pl'.id = i) :
    findPL (replacePL l i pl') i = some pl' := by
  induction l with
  | nil => simp [findPL] at hf
  | cons a as ih =>
      by_cases h : (a.id == i) = true
      · rw [replacePL, if_pos h, findPL]
        exact List.find?_cons_of_pos
          (p := fun (x : PackingList) => x.id == i) as (by simpa using hid)
      · rw [replacePL, if_neg h]
        rw [findPL, List.find?_cons_of_neg
          (p := fun (x : PackingList) => x.id == i) _ (by simpa using h)]
        rw [findPL, List.find?_cons_of_neg
          (p := fun (x : PackingList) => x.id == i) _
          (by simpa using h)] at hf
        exact ih hf

theorem findItem_some_key {l : List Item} {i : ProductId} {it : Item}
    (hf : findItem l i = some it) : it.id = i := by
  have h := List.find?_some hf
  simpa only [beq_iff_eq] using h

theorem mapKeys_aux_nodup (l : List (ProductId × ℚ)) :
    ∀ (acc : List ProductId), acc.Nodup →
      (l.foldl (fun acc it =>
        if acc.contains it.1 then acc else acc ++ [it.1]) acc).Nodup := by
  induction l with
  | nil => intro acc ha; exact ha
  | cons hd tl ih =>
      intro acc ha
      rw [List.foldl_cons]
      by_cases h : (acc.contains hd.1) = true
      · rw [if_pos h]
        exact ih acc ha
      · rw [if_neg h]
        refine ih _ ?_
        rw [List.nodup_append]
        refine ⟨ha, List.nodup_singleton _, ?_⟩
        intro a haa hb
        rw [List.mem_singleton] at hb
        subst hb
        exact h (by simpa using haa)

theorem mapKeys_nodup (l : List (ProductId × ℚ)) : (mapKeys l).Nodup :=
  mapKeys_aux_nodup l [] List.nodup_nil

theorem mapKeys_aux_mem (l : List (ProductId × ℚ)) :
    ∀ (acc : List ProductId) (x : ProductId),
      x ∈ (l.foldl (fun acc it =>
        if acc.contains it.1 then acc else acc ++ [it.1]) acc) ↔
      (x ∈ acc ∨ x ∈ l.map (fun it => it.1)) := by
  induction l with
  | nil =>
      intro acc x
      simp
  | cons hd tl ih =>
      intro acc x
      rw [List.foldl_cons, List.map_cons]
      by_cases h : (acc.contains hd.1) = true
      · rw [if_pos h, ih]
        constructor
        · rintro (ha | ha)
          · exact Or.inl ha
          · exact Or.inr (List.mem_cons_of_mem _ ha)
        · rintro (ha | ha)
          · exact Or.inl ha
          · rcases List.mem_cons.mp ha with h1 | h1
            · subst h1
              exact Or.inl (by simpa using h)
            · exact Or.inr h1
      · rw [if_neg h, ih]
        constructor
        · rintro (ha | ha)
          · rcases List.mem_append.mp ha with h1 | h1
            · exact Or.inl h1
            · rw [List.mem_singleton] at h1
              subst h1
              exact Or.inr (List.mem_cons_self _ _)
          · exact Or.inr (List.mem_cons_of_mem _ ha)
        · rintro (ha | ha)
          · exact Or.inl (List.mem_append.mpr (Or.inl ha))
          · rcases List.mem_cons.mp ha with h1 | h1
            · subst h1
              exact Or.inl (List.mem_append.mpr
                (Or.inr (List.mem_singleton.mpr rfl)))
            · exact Or.inr h1

theorem mapKeys_mem (l : List (ProductId × ℚ)) (x : ProductId) :
    x ∈ mapKeys l ↔ x ∈ l.map (fun it => it.1) := by
  rw [mapKeys, mapKeys_aux_mem]
  simp

theorem markPLStatus_id (pl : PackingList) (stat : String)
    (u : Option UserId) : (markPLStatus pl stat u).id = pl.id := by
  simp only [markPLStatus]
  by_cases h : ((stat == "approved" || stat == "shipped") = true)
  · rw [if_pos h]
    cases u <;> rfl
  · rw [if_neg h]

theorem markPLStatus_status (pl : PackingList) (stat : String)
    (u : Option UserId) : (markPLStatus pl stat u).status = stat := by
  simp only [markPLStatus]
  by_cases h : ((stat == "approved" || stat == "shipped") = true)
  · rw [if_pos h]
    cases u <;> rfl
  · rw [if_neg h]

theorem normalizeInvoiceLoop_forall2 (catalog : List Item) :
    ∀ (items : List RawInvoiceItem) (ns : List NormalizedInvoiceItem),
      normalizeInvoiceLoop catalog items = .ok ns →
      List.Forall₂ lineTotalsSpec items ns := by
  intro items
  induction items with
  | nil =>
      intro ns h
      rw [normalizeInvoiceLoop] at h
      cases h
      exact List.Forall₂.nil
  | cons entry rest ih =>
      intro ns h
      rw [normalizeInvoiceLoop] at h
      cases hone : normalizeOneInvoiceItem catalog entry with
      | error e => rw [hone] at h; cases h
      | ok out =>
          rw [hone] at h
          cases hrest : normalizeInvoiceLoop catalog rest with
          | error e => rw [hrest] at h; cases h
          | ok outs =>
              rw [hrest] at h
              cases h
              refine List.Forall₂.cons ?_ (ih outs hrest)
              rw [normalizeOneInvoiceItem] at hone
              cases hfi : findItem catalog entry.itemId with
              | none => rw [hfi] at hone; cases hone
              | some item =>
                  rw [hfi] at hone
                  cases hone
                  exact ⟨rfl, rfl, rfl, rfl, rfl⟩

/-- C8: for every invoice line normalized by normalizeInvoiceItems, the
computed amounts satisfy gross = quantity * unitPrice, discountAmount =
gross * discountPercent / 100, netOfDiscount = gross - discountAmount,
vatAmount = netOfDiscount * vatPercent / 100 and totalPrice =
netOfDiscount + vatAmount, pairwise along the item list. -/
theorem spec_C8 (catalog : List Item) (items : List RawInvoiceItem)
    (ns : List NormalizedInvoiceItem)
    (h : normalizeInvoiceItems catalog items = .ok ns) :
    List.Forall₂ lineTotalsSpec items ns := by
  rw [normalizeInvoiceItems] at h
  split at h
  · cases h
  · exact normalizeInvoiceLoop_forall2 catalog items ns h

/-- Witness for C8 at the numbers of the specification example: qty 3 at
unit price 50 with 10 percent discount and 5 percent VAT gives discount
amount 15, VAT amount 6.75 and total 141.75. -/
theorem spec_C8_witness : List.Forall₂ lineTotalsSpec [raw358] [out358] :=
  spec_C8 [itemA] [raw358] [out358]
    (by norm_num [normalizeInvoiceItems, normalizeInvoiceLoop,
      normalizeOneInvoiceItem, findItem, List.find?, raw358, out358, itemA])

/-- C2: with ledger quantity Q, the conditional decrement by D with D ≤ Q
persists Q - D; with D > Q it fails carrying available Q versus requested D
and the ledger is unchanged; with no entry it fails with the stock-not-found
error and the ledger is unchanged; an increment by D ≥ 0 persists Q + D. -/
theorem spec_C2 (l : List StockEntry) (p : ProductId) (s : StoreId) (D : ℚ)
    (u : Option UserId) (e : StockEntry) (hok : StocksOk l = true) :
    (findStock l p s = some e → D ≤ e.quantity →
      ∃ l', applyDecrements l s u [(p, D)] = (l', none) ∧
        quantityAt l' p s = e.quantity - D) ∧
    (findStock l p s = some e → e.quantity < D →
      applyDecrements l s u [(p, D)] =
        (l, some (.insufficientStock e.quantity D))) ∧
    (findStock l p s = none →
      applyDecrements l s u [(p, D)] = (l, some .stockNotFound)) ∧
    (findStock l p s = some e → 0 ≤ D →
      ∃ l', restoreStock l p s D u = .ok l' ∧
        quantityAt l' p s = e.quantity + D) := by
  refine ⟨?_, ?_, ?_, ?_⟩
  · intro hf hle
    have heok : stockSaveOk e = true :=
      (List.all_eq_true.mp hok) e (findStock_some_mem hf)
    obtain ⟨hkp, hks⟩ := findStock_some_key hf
    refine ⟨replaceStock l p s
      { e with quantity := e.quantity - D
               lastUpdatedBy := setUser e.lastUpdatedBy u }, ?_, ?_⟩
    · simp only [applyDecrements, decrementStock_spec hf heok hle]
    · have hself : findStock (replaceStock l p s
          { e with quantity := e.quantity - D
                   lastUpdatedBy := setUser e.lastUpdatedBy u }) p s =
          some { e with quantity := e.quantity - D
                        lastUpdatedBy := setUser e.lastUpdatedBy u } :=
        findStock_replaceStock_self hf hkp hks
      rw [quantityAt_of_findStock hself]
  · intro hf hlt
    simp only [applyDecrements, decrementStock_insufficient (u := u) hf hlt]
  · intro hf
    simp only [applyDecrements, decrementStock_absent (q := D) (u := u) hf]
  · intro hf hD
    have heok : stockSaveOk e = true :=
      (List.all_eq_true.mp hok) e (findStock_some_mem hf)
    obtain ⟨hkp, hks⟩ := findStock_some_key hf
    have hsum : 0 ≤ e.quantity + D :=
      add_nonneg (stockSaveOk_iff.mp heok).1 hD
    refine ⟨replaceStock l p s
      { e with quantity := e.quantity + D
               lastUpdatedBy := setUser e.lastUpdatedBy u },
      restoreStock_spec hf heok hsum, ?_⟩
    have hself : findStock (replaceStock l p s
        { e with quantity := e.quantity + D
                 lastUpdatedBy := setUser e.lastUpdatedBy u }) p s =
        some { e with quantity := e.quantity + D
                      lastUpdatedBy := setUser e.lastUpdatedBy u } :=
      findStock_replaceStock_self hf hkp hks
    rw [quantityAt_of_findStock hself]

/-- Witness for C2 on a two-entry ledger: decrementing 3 from quantity 5
persists 2; decrementing 7 fails with available 5 versus requested 7 and
the ledger is unchanged; a missing entry fails with stock-not-found; an
increment of 4 persists 9. -/
theorem spec_C2_witness :
    quantityAt (applyDecrements [entryA, entryB] 5 none [(1, 3)]).1 1 5
      = 2 ∧
    applyDecrements [entryA, entryB] 5 none [(1, 7)] =
      ([entryA, entryB], some (.insufficientStock 5 7)) ∧
    applyDecrements [entryA, entryB] 5 none [(4, 1)] =
      ([entryA, entryB], some .stockNotFound) ∧
    (restoreStock [entryA, entryB] 2 5 4 none).map
      (fun l' => quantityAt l' 2 5) = .ok 13 := by
  refine ⟨?_, ?_, ?_, ?_⟩
  · obtain ⟨l1, hrun1, hq1⟩ :=
      (spec_C2 [entryA, entryB] 1 5 3 none entryA (by decide)).1
        (by decide) (by decide)
    rw [hrun1]
    rw [show ((l1, (none : Option ErrKind)).1) = l1 from rfl, hq1]
    norm_num [entryA]
  · exact (spec_C2 [entryA, entryB] 1 5 7 none entryA (by decide)).2.1
      (by decide) (by decide)
  · exact (spec_C2 [entryA, entryB] 4 5 1 none entryA (by decide)).2.2.1
      (by decide)
  · obtain ⟨l4, hrun4, hq4⟩ :=
      (spec_C2 [entryA, entryB] 2 5 4 none entryB (by decide)).2.2.2
        (by decide) (by decide)
    rw [hrun4]
    simp only [Except.map]
    rw [hq4]
    norm_num [entryB]

/-- C3: evaluation at the failing input: deleting the draft packing list
holding a 10-unit line for product 3 succeeds and removes the manifest, but
the source ledger entry for (product 3, store 5) keeps quantity 4 instead
of returning to its pre-manifest quantity; no restoration happens. -/
theorem spec_C3 :
    (deletePackingList baseState 0).2 = none ∧
    findPL (deletePackingList baseState 0).1.packingLists 0 = none ∧
    (deletePackingList baseState 0).1.stocks = baseState.stocks ∧
    plDraft.items = [{ product := 3, quantity := 10 }] ∧
    quantityAt baseState.stocks 3 5 = 4 ∧
    quantityAt (deletePackingList baseState 0).1.stocks 3 5 = 4 := by
  decide

/-- Counterexample to C4 as stated: submitting status approved for the
already-approved packing list returns success (no Conflict error), leaving
the ledger unchanged. -/
theorem spec_C4_cex :
    (updatePackingList stApproved reqApprove).2 = none ∧
    (updatePackingList stApproved reqApprove).1.stocks =
      stApproved.stocks := by
  decide

/-- C4 as amended: re-approving an approved manifest performs no ledger or
catalog mutation and does not re-apply destination increments, but it
silently succeeds, re-persisting the approved status, instead of failing
with Conflict. -/
theorem spec_C4 (st : GState) (r : UpdatePLReq) (pl : PackingList)
    (hpl : findPL st.packingLists r.id = some pl)
    (happ : pl.status = "approved") (hstat : r.status = some "approved")
    (hitems : r.items = none) (htos : r.toStoreId = none)
    (hcur : r.currency = none) (hrate : r.exchangeRate = none) :
    ∃ st', updatePackingList st r = (st', none) ∧
      st'.stocks = st.stocks ∧ st'.catalog = st.catalog ∧
      findPL st'.packingLists r.id =
        some (markPLStatus pl "approved" r.user) ∧
      (markPLStatus pl "approved" r.user).status = "approved" := by
  have hid : pl.id = r.id := findPL_some_key hpl
  simp only [updatePackingList, hpl, htos, hcur, hrate, hitems]
  simp only [finishPLUpdate, hstat]
  rw [if_pos (by decide :
    (("approved" != "") && plStatusStrings.contains "approved") = true)]
  simp only [happ]
  rw [if_neg (by decide :
    ¬ ((("approved" == "approved") && ("approved" != "approved")) = true))]
  refine ⟨_, rfl, rfl, rfl, ?_, markPLStatus_status pl "approved" r.user⟩
  rw [hid]
  exact findPL_replace_self hpl
    ((markPLStatus_id pl "approved" r.user).trans hid)

/-- Witness for C4: the concrete re-approval request succeeds, keeps the
stocks, and leaves the packing list approved. -/
theorem spec_C4_witness :
    (updatePackingList stApproved reqApprove).2 = none ∧
    (updatePackingList stApproved reqApprove).1.stocks =
      stApproved.stocks ∧
    ((findPL (updatePackingList stApproved reqApprove).1.packingLists
      0).map (fun pl => pl.status)) = some "approved" := by
  obtain ⟨st', hrun, hstocks, hcat, hfind, hstat⟩ :=
    spec_C4 stApproved reqApprove plApproved (by rfl) (by rfl)
      rfl rfl rfl rfl rfl
  rw [hrun]
  refine ⟨rfl, hstocks, ?_⟩
  rw [show ((st', (none : Option ErrKind)).1) = st' from rfl]
  rw [show (0 : Nat) = reqApprove.id from rfl, hfind]
  simp only [Option.map]
  rw [hstat]

/-- C9: an invoice update that supplies a numeric taxAmount without an
items array persists the new taxAmount while netAmount, subTotal,
discountTotal and vatTotal stay unchanged, so the persisted invoice no
longer satisfies netAmount = subTotal - discountTotal + vatTotal +
taxAmount. -/
theorem spec_C9 (st : GState) (r : UpdateInvoiceReq) (inv : SalesInvoice)
    (t : ℚ) (hinv : findInvoice st.invoices r.id = some inv)
    (hitems : r.items = none) (htax : r.taxAmount = some t)
    (hold : inv.netAmount =
      inv.subTotal - inv.discountTotal + inv.vatTotal + inv.taxAmount)
    (hne : t ≠ inv.taxAmount) :
    ∃ st', updateSalesInvoice st r = (st', none) ∧
      st'.stocks = st.stocks ∧
      ∃ inv', findInvoice st'.invoices r.id = some inv' ∧
        inv'.taxAmount = t ∧ inv'.netAmount = inv.netAmount ∧
        inv'.subTotal = inv.subTotal ∧
        inv'.discountTotal = inv.discountTotal ∧
        inv'.vatTotal = inv.vatTotal ∧
        inv'.netAmount ≠
          inv'.subTotal - inv'.discountTotal + inv'.vatTotal +
            inv'.taxAmount := by
  have hid : inv.id = r.id := findInvoice_some_key hinv
  simp only [updateSalesInvoice, hinv, htax, hitems]
  refine ⟨_, rfl, rfl, { inv with taxAmount := t }, ?_, rfl, rfl, rfl,
    rfl, rfl, ?_⟩
  · exact findInvoice_replace_self hinv hid
  · show inv.netAmount ≠
      inv.subTotal - inv.discountTotal + inv.vatTotal + t
    rw [hold]
    intro hcontra
    exact hne (add_left_cancel hcontra).symm

/-- Witness for C9: updating invoice 0 with taxAmount 33 and no items
succeeds, persists taxAmount 33, and leaves netAmount at 500 even though
500 differs from 500 - 0 + 0 + 33. -/
theorem spec_C9_witness :
    (updateSalesInvoice baseState reqC9).2 = none ∧
    ((findInvoice (updateSalesInvoice baseState reqC9).1.invoices
      0).map (fun inv => inv.taxAmount)) = some 33 ∧
    ((findInvoice (updateSalesInvoice baseState reqC9).1.invoices
      0).map (fun inv => inv.netAmount)) = some 500 := by
  obtain ⟨st', hrun, hstocks, inv', hfind, htax, hnet, hsub, hdisc, hvat,
    hneq⟩ := spec_C9 baseState reqC9 inv0 33 (by rfl) rfl rfl
      (by norm_num [inv0]) (by norm_num [inv0])
  rw [hrun]
  refine ⟨rfl, ?_, ?_⟩
  · rw [show ((st', (none : Option ErrKind)).1) = st' from rfl]
    rw [show (0 : Nat) = reqC9.id from rfl, hfind]
    simp only [Option.map]
    rw [htax]
  · rw [show ((st', (none : Option ErrKind)).1) = st' from rfl]
    rw [show (0 : Nat) = reqC9.id from rfl, hfind]
    simp only [Option.map]
    rw [hnet]
    norm_num [inv0]

/-- Counterexample to C1 as stated: a direct adjustment to the negative
quantity -1 fails through the schema validation of the save, not with an
InsufficientStock error, while the entry stays unchanged. -/
theorem spec_C1_cex :
    adjustStockQuantity baseState 10 (some (-1)) (some 3) =
      (baseState, some .validationFailed) := by
  decide

/-- C1 as amended: every entry quantity stays nonnegative after any
sequence of the ledger operations, whether each succeeds or fails; the
guarded conditional decrement fails with InsufficientStock and leaves the
ledger unchanged when the requested delta exceeds the available quantity;
a direct adjustment to a negative quantity fails with the schema validation
error, not InsufficientStock, and leaves the state unchanged. -/
theorem spec_C1 :
    (∀ (st : GState) (ops : List LedgerOp), StocksOk st.stocks = true →
      ∀ e ∈ (applyOps st ops).stocks, 0 ≤ e.quantity) ∧
    (∀ (st : GState) (ops : List LedgerOp) (p : ProductId) (s : StoreId),
      StocksOk st.stocks = true →
      0 ≤ quantityAt (applyOps st ops).stocks p s) ∧
    (∀ (l : List StockEntry) (p : ProductId) (s : StoreId) (D : ℚ)
      (u : Option UserId) (e : StockEntry), findStock l p s = some e →
      e.quantity < D →
      applyDecrements l s u [(p, D)] =
        (l, some (.insufficientStock e.quantity D))) ∧
    (∀ (st : GState) (i : Nat) (q : ℚ) (u : UserId) (stock : StockEntry),
      findStockById st.stocks i = some stock → q < 0 →
      adjustStockQuantity st i (some q) (some u) =
        (st, some .validationFailed)) := by
  refine ⟨?_, ?_, ?_, ?_⟩
  · intro st ops hok e he
    exact stocksOk_nonneg (applyOps_stocksOk ops st hok) he
  · intro st ops p s hok
    cases hfq : findStock (applyOps st ops).stocks p s with
    | none => simp only [quantityAt, hfq]; exact le_refl 0
    | some e =>
        rw [quantityAt_of_findStock hfq]
        exact stocksOk_nonneg (applyOps_stocksOk ops st hok)
          (findStock_some_mem hfq)
  · intro l p s D u e hf hlt
    simp only [applyDecrements, decrementStock_insufficient (u := u) hf hlt]
  · intro st i q u stock hf hq
    have hbad : ¬(stockSaveOk
        { stock with quantity := q, lastUpdatedBy := some u } = true) := by
      intro h
      exact absurd (stockSaveOk_iff.mp h).1 (not_le.mpr hq)
    have hsv : saveStockById st.stocks i
        { stock with quantity := q, lastUpdatedBy := some u } =
        .error .validationFailed := by
      rw [saveStockById, if_neg hbad]
    simp only [adjustStockQuantity, hf, hsv]

/-- Witness for C1: a two-operation run from the base state keeps the
quantity at (product 1, store 5) nonnegative; the concrete insufficiency
failure reports 5 available against 7 requested without mutation; and the
concrete adjustment to -2 fails with the validation error, state
unchanged. -/
theorem spec_C1_witness :
    0 ≤ quantityAt (applyOps baseState
      [LedgerOp.updateInvoice reqC6, LedgerOp.submitQC reqQC]).stocks
      1 5 ∧
    applyDecrements [entryA, entryB] 5 none [(1, 7)] =
      ([entryA, entryB], some (.insufficientStock 5 7)) ∧
    adjustStockQuantity baseState 10 (some (-2)) (some 3) =
      (baseState, some .validationFailed) := by
  refine ⟨?_, ?_, ?_⟩
  · exact spec_C1.2.1 baseState
      [LedgerOp.updateInvoice reqC6, LedgerOp.submitQC reqQC] 1 5
      (by decide)
  · exact spec_C1.2.2.1 [entryA, entryB] 1 5 7 none entryA (by decide)
      (by decide)
  · exact spec_C1.2.2.2 baseState 10 (-2) 3 entryA (by decide) (by decide)

/-- Composition of the diff loop with the removed-items loop, as the two
update controllers run them. -/
theorem reconcile_spec (sid : StoreId) (u : Option UserId)
    (old news : List (ProductId × ℚ)) (l : List StockEntry)
    (hok : StocksOk l = true)
    (hnd : (news.map (fun it => it.1)).Nodup)
    (hex : ∀ pq ∈ news, pq.2 - oldQtyOf old pq.1 ≠ 0 →
      ∃ e, findStock l pq.1 sid = some e ∧
        pq.2 - oldQtyOf old pq.1 ≤ e.quantity)
    (hq : ∀ p ∈ mapKeys old, p ∉ news.map (fun it => it.1) →
      0 ≤ oldQtyOf old p) :
    ∃ l1 l2, applyDiffs l sid u old news = (l1, none) ∧
      applyRemovedRestores l1 sid u old (news.map (fun it => it.1))
        (mapKeys old) = (l2, none) ∧
      StocksOk l2 = true ∧
      (∀ pq ∈ news, quantityAt l2 pq.1 sid =
        quantityAt l pq.1 sid - (pq.2 - oldQtyOf old pq.1)) ∧
      (∀ p ∈ mapKeys old, p ∉ news.map (fun it => it.1) →
        (findStock l p sid = none → findStock l2 p sid = none) ∧
        (∀ e, findStock l p sid = some e →
          quantityAt l2 p sid = e.quantity + oldQtyOf old p)) := by
  obtain ⟨l1, hrun1, hok1, hframe1, hvals1⟩ :=
    applyDiffs_spec sid u old news l hok hnd hex
  obtain ⟨l2, hrun2, hok2, hframe2, hproc2, hrest2⟩ :=
    applyRemovedRestores_spec sid u old (news.map (fun it => it.1))
      (mapKeys old) l1 hok1 (mapKeys_nodup old) (fun p hp hnp => hq p hp hnp)
  refine ⟨l1, l2, hrun1, hrun2, hok2, ?_, ?_⟩
  · intro pq hpq
    have h2 : findStock l2 pq.1 sid = findStock l1 pq.1 sid := by
      by_cases hin : pq.1 ∈ mapKeys old
      · exact hproc2 pq.1 hin (List.mem_map_of_mem (fun it => it.1) hpq)
      · exact hframe2 pq.1 sid (Or.inr hin)
    rw [quantityAt_congr h2]
    exact hvals1 pq hpq
  · intro p hp hnp
    have h1 : findStock l1 p sid = findStock l p sid :=
      hframe1 p sid (Or.inr hnp)
    have h2 := hrest2 p hp hnp
    constructor
    · intro hc
      exact h2.1 (by rw [h1]; exact hc)
    · intro e he
      exact h2.2 e (by rw [h1]; exact he)

/-- C6: diff reconciliation on edit, for invoices and for draft manifests:
for every product in the new list, a positive diff decrements the ledger by
the diff, a negative diff increments by its magnitude, a zero diff leaves
the entry untouched; every old product absent from the new list, whose
entry exists, is incremented by its full old quantity. -/
theorem spec_C6 :
    (∀ (st : GState) (r : UpdateInvoiceReq) (inv : SalesInvoice)
      (raws : List RawInvoiceItem) (ns : List NormalizedInvoiceItem),
      findInvoice st.invoices r.id = some inv →
      r.items = some raws →
      normalizeInvoiceItems st.catalog raws = .ok ns →
      StocksOk st.stocks = true →
      (((ns.map (fun it => (it.item, it.quantity))).map
        (fun it => it.1)).Nodup) →
      (∀ pq ∈ ns.map (fun it => (it.item, it.quantity)),
        pq.2 - oldQtyOf (invoiceOldPairs inv) pq.1 ≠ 0 →
        ∃ e, findStock st.stocks pq.1 inv.store = some e ∧
          pq.2 - oldQtyOf (invoiceOldPairs inv) pq.1 ≤ e.quantity) →
      (∀ p ∈ mapKeys (invoiceOldPairs inv),
        p ∉ (ns.map (fun it => (it.item, it.quantity))).map
          (fun it => it.1) →
        0 ≤ oldQtyOf (invoiceOldPairs inv) p) →
      ∃ st', updateSalesInvoice st r = (st', none) ∧
        (∀ pq ∈ ns.map (fun it => (it.item, it.quantity)),
          quantityAt st'.stocks pq.1 inv.store =
            quantityAt st.stocks pq.1 inv.store -
              (pq.2 - oldQtyOf (invoiceOldPairs inv) pq.1)) ∧
        (∀ p ∈ mapKeys (invoiceOldPairs inv),
          p ∉ (ns.map (fun it => (it.item, it.quantity))).map
            (fun it => it.1) →
          ∀ e, findStock st.stocks p inv.store = some e →
            quantityAt st'.stocks p inv.store =
              e.quantity + oldQtyOf (invoiceOldPairs inv) p)) ∧
    (∀ (st : GState) (r : UpdatePLReq) (pl : PackingList) (sid : StoreId)
      (raws : List RawPLItem) (ns : List PLItem),
      findPL st.packingLists r.id = some pl →
      r.items = some raws →
      normalizePLItems st.catalog raws = .ok ns →
      r.storeId = some sid →
      r.status = none →
      StocksOk st.stocks = true →
      (((ns.map (fun it => (it.product, it.quantity))).map
        (fun it => it.1)).Nodup) →
      (∀ pq ∈ ns.map (fun it => (it.product, it.quantity)),
        pq.2 - oldQtyOf (plOldPairs pl) pq.1 ≠ 0 →
        ∃ e, findStock st.stocks pq.1 sid = some e ∧
          pq.2 - oldQtyOf (plOldPairs pl) pq.1 ≤ e.quantity) →
      (∀ p ∈ mapKeys (plOldPairs pl),
        p ∉ (ns.map (fun it => (it.product, it.quantity))).map
          (fun it => it.1) →
        0 ≤ oldQtyOf (plOldPairs pl) p) →
      ∃ st', updatePackingList st r = (st', none) ∧
        (∀ pq ∈ ns.map (fun it => (it.product, it.quantity)),
          quantityAt st'.stocks pq.1 sid =
            quantityAt st.stocks pq.1 sid -
              (pq.2 - oldQtyOf (plOldPairs pl) pq.1)) ∧
        (∀ p ∈ mapKeys (plOldPairs pl),
          p ∉ (ns.map (fun it => (it.product, it.quantity))).map
            (fun it => it.1) →
          ∀ e, findStock st.stocks p sid = some e →
            quantityAt st'.stocks p sid =
              e.quantity + oldQtyOf (plOldPairs pl) p)) := by
  constructor
  · intro st r inv raws ns hinv hritems hn hok hnd hex hq
    obtain ⟨l1, l2, hrun1, hrun2, hok2, hnew, hrem⟩ :=
      reconcile_spec inv.store r.user (invoiceOldPairs inv)
        (ns.map (fun it => (it.item, it.quantity))) st.stocks hok hnd hex hq
    simp only [updateSalesInvoice, hinv, hritems, hn, hrun1, hrun2]
    refine ⟨_, rfl, ?_, ?_⟩
    · intro pq hpq
      exact hnew pq hpq
    · intro p hp hnp e he
      exact (hrem p hp hnp).2 e he
  · intro st r pl sid raws ns hpl hritems hn hsid hstat hok hnd hex hq
    obtain ⟨l1, l2, hrun1, hrun2, hok2, hnew, hrem⟩ :=
      reconcile_spec sid r.user (plOldPairs pl)
        (ns.map (fun it => (it.product, it.quantity))) st.stocks hok hnd
        hex hq
    simp only [updatePackingList, hpl, hritems, hn, hsid, hrun1, hrun2]
    simp only [finishPLUpdate, hstat]
    refine ⟨_, rfl, ?_, ?_⟩
    · intro pq hpq
      exact hnew pq hpq
    · intro p hp hnp e he
      exact (hrem p hp hnp).2 e he

/-- Witness for C6 at the numbers of the specification example: editing the
invoice line productA 5 to productA 8, productB 2 leaves the store-5 ledger
at 2 for product 1 (5 - 3) and 7 for product 2 (9 - 2); editing the draft
manifest line product 3 from 10 to 12 leaves its source ledger at 2
(4 - 2). -/
theorem spec_C6_witness :
    quantityAt (updateSalesInvoice baseState reqC6).1.stocks 1 5 = 2 ∧
    quantityAt (updateSalesInvoice baseState reqC6).1.stocks 2 5 = 7 ∧
    quantityAt (updatePackingList baseState reqPL6).1.stocks 3 5 = 2 := by
  have e1 : normalizeOneInvoiceItem baseState.catalog rawA8 =
      .ok normA8 := by
    norm_num [normalizeOneInvoiceItem, findItem, List.find?, baseState,
      itemA, rawA8, normA8]
  have hfi2 : findItem baseState.catalog 2 = some itemB := by decide
  have e2 : normalizeOneInvoiceItem baseState.catalog rawB2 =
      .ok normB2 := by
    norm_num [normalizeOneInvoiceItem, rawB2, hfi2, itemB, normB2]
  have hn : normalizeInvoiceItems baseState.catalog [rawA8, rawB2] =
      .ok [normA8, normB2] := by
    simp only [normalizeInvoiceItems, normalizeInvoiceLoop, e1, e2,
      List.isEmpty_cons, Bool.false_eq_true, if_false]
  have hold1 : oldQtyOf (invoiceOldPairs inv0) 1 = 5 := by decide
  have hold2 : oldQtyOf (invoiceOldPairs inv0) 2 = 0 := by decide
  obtain ⟨st', hrun, hnew, hrem⟩ :=
    spec_C6.1 baseState reqC6 inv0 [rawA8, rawB2] [normA8, normB2]
      rfl rfl hn (by decide) (by decide)
      (by
        intro pq hpq hne
        have hmem : pq = (1, 8) ∨ pq = (2, 2) := by
          simpa [normA8, normB2] using hpq
        rcases hmem with h | h <;> subst h
        · refine ⟨entryA, rfl, ?_⟩
          rw [show ((1:ProductId), (8:ℚ)).1 = 1 from rfl, hold1]
          norm_num [entryA]
        · refine ⟨entryB, rfl, ?_⟩
          rw [show ((2:ProductId), (2:ℚ)).1 = 2 from rfl, hold2]
          norm_num [entryB])
      (by
        intro p hp hnp
        have hk : mapKeys (invoiceOldPairs inv0) = [1] := by decide
        rw [hk, List.mem_singleton] at hp
        subst hp
        exact absurd (by decide) hnp)
  have hold3 : oldQtyOf (plOldPairs plDraft) 3 = 10 := by decide
  obtain ⟨st2, hrun2, hnew2, hrem2⟩ :=
    spec_C6.2 baseState reqPL6 plDraft 5
      [{ productId := 3, quantity := 12 }] [{ product := 3, quantity := 12 }]
      rfl rfl rfl rfl rfl (by decide) (by decide)
      (by
        intro pq hpq hne
        have hmem : pq = (3, 12) := by simpa using hpq
        subst hmem
        refine ⟨entryC, rfl, ?_⟩
        rw [show ((3:ProductId), (12:ℚ)).1 = 3 from rfl, hold3]
        norm_num [entryC])
      (by
        intro p hp hnp
        have hk : mapKeys (plOldPairs plDraft) = [3] := by decide
        rw [hk, List.mem_singleton] at hp
        subst hp
        exact absurd (by decide) hnp)
  refine ⟨?_, ?_, ?_⟩
  · rw [hrun]
    show quantityAt st'.stocks ((1:ProductId), (8:ℚ)).1 inv0.store = 2
    rw [hnew (1, 8) (by decide)]
    rw [show quantityAt baseState.stocks ((1:ProductId), (8:ℚ)).1
      inv0.store = 5 from by decide]
    rw [show oldQtyOf (invoiceOldPairs inv0) ((1:ProductId), (8:ℚ)).1 = 5
      from by decide]
    norm_num
  · rw [hrun]
    show quantityAt st'.stocks ((2:ProductId), (2:ℚ)).1 inv0.store = 7
    rw [hnew (2, 2) (by decide)]
    rw [show quantityAt baseState.stocks ((2:ProductId), (2:ℚ)).1
      inv0.store = 9 from by decide]
    rw [show oldQtyOf (invoiceOldPairs inv0) ((2:ProductId), (2:ℚ)).1 = 0
      from by decide]
    norm_num
  · rw [hrun2]
    show quantityAt st2.stocks ((3:ProductId), (12:ℚ)).1 5 = 2
    rw [hnew2 (3, 12) (by decide)]
    rw [show quantityAt baseState.stocks ((3:ProductId), (12:ℚ)).1 5 = 4
      from by decide]
    rw [show oldQtyOf (plOldPairs plDraft) ((3:ProductId), (12:ℚ)).1 = 10
      from by decide]
    norm_num

theorem applyDeleteRestores_absent (sid : StoreId) (u : Option UserId) :
    ∀ (items : List (ProductId × ℚ)) (l : List StockEntry),
      (∀ pq ∈ items, findStock l pq.1 sid = none) →
      applyDeleteRestores l sid u items = (l, none) := by
  intro items
  induction items with
  | nil => intro l _; rfl
  | cons hd tl ih =>
      intro l habs
      obtain ⟨p, q⟩ := hd
      have h1 : findStock l p sid = none :=
        habs (p, q) (List.mem_cons_self _ _)
      simp only [applyDeleteRestores, restoreStock_absent h1]
      exact ih l (fun pq hpq => habs pq (List.mem_cons_of_mem _ hpq))

/-- C10: a restoration path that finds no stock entry for the restored
product at the document's store silently skips it: invoice deletion with
all line entries absent succeeds while the ledger and the missing entries
are untouched; an invoice edit (and a manifest edit) that removes a
product whose entry is absent succeeds while that entry is neither created
nor restored. -/
theorem spec_C10 :
    (∀ (st : GState) (id : Nat) (u : Option UserId) (inv : SalesInvoice),
      findInvoice st.invoices id = some inv →
      (∀ pq ∈ invoiceOldPairs inv,
        findStock st.stocks pq.1 inv.store = none) →
      deleteSalesInvoice st id u =
        ({ st with invoices := removeInvoice st.invoices id }, none)) ∧
    (∀ (st : GState) (r : UpdateInvoiceReq) (inv : SalesInvoice)
      (raws : List RawInvoiceItem) (ns : List NormalizedInvoiceItem)
      (p : ProductId),
      findInvoice st.invoices r.id = some inv →
      r.items = some raws →
      normalizeInvoiceItems st.catalog raws = .ok ns →
      StocksOk st.stocks = true →
      (((ns.map (fun it => (it.item, it.quantity))).map
        (fun it => it.1)).Nodup) →
      (∀ pq ∈ ns.map (fun it => (it.item, it.quantity)),
        pq.2 - oldQtyOf (invoiceOldPairs inv) pq.1 ≠ 0 →
        ∃ e, findStock st.stocks pq.1 inv.store = some e ∧
          pq.2 - oldQtyOf (invoiceOldPairs inv) pq.1 ≤ e.quantity) →
      (∀ x ∈ mapKeys (invoiceOldPairs inv),
        x ∉ (ns.map (fun it => (it.item, it.quantity))).map
          (fun it => it.1) →
        0 ≤ oldQtyOf (invoiceOldPairs inv) x) →
      p ∈ mapKeys (invoiceOldPairs inv) →
      p ∉ (ns.map (fun it => (it.item, it.quantity))).map
        (fun it => it.1) →
      findStock st.stocks p inv.store = none →
      ∃ st', updateSalesInvoice st r = (st', none) ∧
        findStock st'.stocks p inv.store = none) ∧
    (∀ (st : GState) (r : UpdatePLReq) (pl : PackingList) (sid : StoreId)
      (raws : List RawPLItem) (ns : List PLItem) (p : ProductId),
      findPL st.packingLists r.id = some pl →
      r.items = some raws →
      normalizePLItems st.catalog raws = .ok ns →
      r.storeId = some sid →
      r.status = none →
      StocksOk st.stocks = true →
      (((ns.map (fun it => (it.product, it.quantity))).map
        (fun it => it.1)).Nodup) →
      (∀ pq ∈ ns.map (fun it => (it.product, it.quantity)),
        pq.2 - oldQtyOf (plOldPairs pl) pq.1 ≠ 0 →
        ∃ e, findStock st.stocks pq.1 sid = some e ∧
          pq.2 - oldQtyOf (plOldPairs pl) pq.1 ≤ e.quantity) →
      (∀ x ∈ mapKeys (plOldPairs pl),
        x ∉ (ns.map (fun it => (it.product, it.quantity))).map
          (fun it => it.1) →
        0 ≤ oldQtyOf (plOldPairs pl) x) →
      p ∈ mapKeys (plOldPairs pl) →
      p ∉ (ns.map (fun it => (it.product, it.quantity))).map
        (fun it => it.1) →
      findStock st.stocks p sid = none →
      ∃ st', updatePackingList st r = (st', none) ∧
        findStock st'.stocks p sid = none) := by
  refine ⟨?_, ?_, ?_⟩
  · intro st id u inv hinv habs
    simp only [deleteSalesInvoice, hinv,
      applyDeleteRestores_absent inv.store u (invoiceOldPairs inv)
        st.stocks habs]
  · intro st r inv raws ns p hinv hritems hn hok hnd hex hq hp hnp habs
    obtain ⟨l1, l2, hrun1, hrun2, hok2, hnew, hrem⟩ :=
      reconcile_spec inv.store r.user (invoiceOldPairs inv)
        (ns.map (fun it => (it.item, it.quantity))) st.stocks hok hnd
        hex hq
    simp only [updateSalesInvoice, hinv, hritems, hn, hrun1, hrun2]
    exact ⟨_, rfl, (hrem p hp hnp).1 habs⟩
  · intro st r pl sid raws ns p hpl hritems hn hsid hstat hok hnd hex
      hq hp hnp habs
    obtain ⟨l1, l2, hrun1, hrun2, hok2, hnew, hrem⟩ :=
      reconcile_spec sid r.user (plOldPairs pl)
        (ns.map (fun it => (it.product, it.quantity))) st.stocks hok hnd
        hex hq
    simp only [updatePackingList, hpl, hritems, hn, hsid, hrun1, hrun2]
    simp only [finishPLUpdate, hstat]
    exact ⟨_, rfl, (hrem p hp hnp).1 habs⟩

/-- Witness for C10: deleting invoice 1 (store 6, no stock entries)
succeeds with the ledger untouched; editing it down to its product-1 line
succeeds while the removed product 2 still has no entry at store 6; the
same for the manifest edit. -/
theorem spec_C10_witness :
    deleteSalesInvoice stC10 1 none =
      ({ stC10 with invoices := removeInvoice stC10.invoices 1 }, none) ∧
    ((updateSalesInvoice stC10 reqC10).2 = none ∧
      findStock (updateSalesInvoice stC10 reqC10).1.stocks 2 6 = none) ∧
    ((updatePackingList stC10 reqPL10).2 = none ∧
      findStock (updatePackingList stC10 reqPL10).1.stocks 2 6 = none) := by
  refine ⟨?_, ?_, ?_⟩
  · exact spec_C10.1 stC10 1 none invNoStock (by decide) (by decide)
  · have hold : oldQtyOf (invoiceOldPairs invNoStock) 1 = 5 := by decide
    have hn : normalizeInvoiceItems stC10.catalog [rawA5] =
        .ok [normA5] := by
      norm_num [normalizeInvoiceItems, normalizeInvoiceLoop,
        normalizeOneInvoiceItem, findItem, List.find?, stC10, baseState,
        itemA, rawA5, normA5]
    obtain ⟨st', hrun, habs'⟩ :=
      spec_C10.2.1 stC10 reqC10 invNoStock [rawA5] [normA5] 2
        (by decide) rfl hn (by decide) (by decide)
        (by
          intro pq hpq hne
          have hmem : pq = (1, 5) := by simpa [normA5] using hpq
          subst hmem
          exfalso
          apply hne
          rw [show ((1:ProductId), (5:ℚ)).1 = 1 from rfl, hold]
          norm_num)
        (by decide) (by decide) (by decide) (by decide)
    rw [hrun]
    exact ⟨rfl, habs'⟩
  · have hold : oldQtyOf (plOldPairs plC10) 1 = 4 := by decide
    obtain ⟨st2, hrun2, habs2⟩ :=
      spec_C10.2.2 stC10 reqPL10 plC10 6
        [{ productId := 1, quantity := 4 }]
        [{ product := 1, quantity := 4 }] 2
        (by decide) rfl rfl rfl rfl (by decide) (by decide)
        (by
          intro pq hpq hne
          have hmem : pq = (1, 4) := by simpa using hpq
          subst hmem
          exfalso
          apply hne
          rw [show ((1:ProductId), (4:ℚ)).1 = 1 from rfl, hold]
          norm_num)
        (by decide) (by decide) (by decide) (by decide)
    rw [hrun2]
    exact ⟨rfl, habs2⟩

theorem findStock_singleton_self {e : StockEntry} {p : ProductId}
    {s : StoreId} (hp : e.product = p) (hs : e.store = s) :
    findStock [e] p s = some e :=
  findStock_cons_pos (by simp [hp, hs])

theorem findStock_singleton_ne {e : StockEntry} {p : ProductId}
    {s : StoreId} (h : ¬(p = e.product ∧ s = e.store)) :
    findStock [e] p s = none := by
  rw [findStock_cons_neg, findStock]
  · rfl
  · simp only [Bool.and_eq_true, beq_iff_eq]
    rintro ⟨h1, h2⟩
    exact h ⟨h1.symm, h2.symm⟩

theorem findItem_replaceItem_self {catalog : List Item} {i : ProductId}
    {it x : Item} (hfound : findItem catalog i = some x)
    (hit : it.id = i) :
    findItem (replaceItem catalog i it) i = some it := by
  induction catalog with
  | nil => simp [findItem] at hfound
  | cons a as ih =>
      by_cases h : (a.id == i) = true
      · rw [replaceItem, if_pos h]
        exact findItem_cons_pos (by simp [hit])
      · rw [replaceItem, if_neg h]
        rw [findItem_cons_neg h]
        rw [findItem_cons_neg h] at hfound
        exact ih hfound

/-- Functional specification of the approval move loop in the conversion
case: transfer currency AED, nonzero exchange rate, every product found
with a nonzero unit price, distinct products and nonnegative quantities:
every line lands on the destination ledger with its quantity added and
currency AED, the catalog entry of every line product is repointed to AED
at the converted price unitPrice * rate, and other stock keys and other
catalog entries are untouched. -/
theorem applyApprovalMoves_spec (dest : StoreId) (rate : ℚ)
    (u : Option UserId) (hr0 : rate ≠ 0) :
    ∀ (items : List PLItem) (l : List StockEntry) (catalog : List Item)
      (nid : Nat),
      StocksOk l = true →
      (items.map (fun it => it.product)).Nodup →
      (∀ it ∈ items, ∃ prod, findItem catalog it.product = some prod ∧
        prod.unitPrice ≠ 0) →
      (∀ it ∈ items, 0 ≤ it.quantity) →
      ∃ l' cat' n',
        applyApprovalMoves l catalog nid dest "AED" (some rate) u items =
          ((l', cat', n'), none) ∧
        StocksOk l' = true ∧
        (∀ (q0 : ProductId) (t : StoreId),
          (¬ t = dest ∨ q0 ∉ items.map (fun it => it.product)) →
          findStock l' q0 t = findStock l q0 t) ∧
        (∀ j : ProductId, j ∉ items.map (fun it => it.product) →
          findItem cat' j = findItem catalog j) ∧
        (∀ it ∈ items, ∀ prod, findItem catalog it.product = some prod →
          (∃ e, findStock l' it.product dest = some e ∧
            e.quantity = quantityAt l it.product dest + it.quantity ∧
            e.currency = "AED") ∧
          findItem cat' it.product =
            some { prod with currency := "AED"
                             unitPrice := prod.unitPrice * rate }) := by
  intro items
  induction items with
  | nil =>
      intro l catalog nid hok _ _ _
      exact ⟨l, catalog, nid, rfl, hok, fun _ _ _ => rfl, fun _ _ => rfl,
        fun _ h => absurd h (List.not_mem_nil _)⟩
  | cons item tl ih =>
      intro l catalog nid hok hnd hprod hqty
      rw [List.map_cons, List.nodup_cons] at hnd
      obtain ⟨hpn, hndtl⟩ := hnd
      obtain ⟨prod, hfi, hpne⟩ := hprod item (List.mem_cons_self _ _)
      have hprodid : prod.id = item.product := findItem_some_key hfi
      have hconv : (("AED" == "AED") && rateTruthy (some rate) &&
          (prod.unitPrice != 0)) = true := by
        simp [rateTruthy, bne_iff_ne, hr0, hpne]
      have hq0 : 0 ≤ item.quantity := hqty item (List.mem_cons_self _ _)
      have hcat1 : ∀ j, ¬(j = prod.id) →
          findItem (replaceItem catalog prod.id
            { prod with currency := "AED"
                        unitPrice := prod.unitPrice * rate }) j =
          findItem catalog j := by
        intro j hj
        exact findItem_replaceItem_ne rfl hj
      have hcatself : findItem (replaceItem catalog prod.id
          { prod with currency := "AED"
                      unitPrice := prod.unitPrice * rate }) prod.id =
          some { prod with currency := "AED"
                           unitPrice := prod.unitPrice * rate } :=
        findItem_replaceItem_self (by rw [hprodid]; exact hfi) rfl
      cases hfs : findStock l item.product dest with
      | some d =>
          obtain ⟨hkp, hks⟩ := findStock_some_key hfs
          have heok : stockSaveOk d = true :=
            (List.all_eq_true.mp hok) d (findStock_some_mem hfs)
          have hx : stockSaveOk
              { d with quantity := d.quantity + item.quantity
                       currency := "AED"
                       lastUpdatedBy := u } = true :=
            stockSaveOk_iff.mpr
              ⟨add_nonneg (stockSaveOk_iff.mp heok).1 hq0, Or.inr rfl⟩
          have hstep : approvalStep l nid dest item.product "AED"
              (prod.unitPrice * rate) item.quantity u =
              .ok (replaceStock l item.product dest
                { d with quantity := d.quantity + item.quantity
                         currency := "AED"
                         lastUpdatedBy := u }, nid) := by
            simp only [approvalStep, hfs]
            rw [saveStockByKey, if_pos hx]
            rfl
          set e1 : StockEntry :=
            { d with quantity := d.quantity + item.quantity
                     currency := "AED"
                     lastUpdatedBy := u } with he1
          set s1 := replaceStock l item.product dest e1 with hs1
          have hok1 : StocksOk s1 = true := stocksOk_replace hok hx
          have hframe1 : ∀ (q0 : ProductId) (t : StoreId),
              ¬(q0 = item.product ∧ t = dest) →
              findStock s1 q0 t = findStock l q0 t := by
            intro q0 t h
            exact findStock_replaceStock_ne hkp hks h
          have hself1 : findStock s1 item.product dest = some e1 :=
            findStock_replaceStock_self hfs hkp hks
          obtain ⟨l', cat', n', hrun, hok', hframe, hcatf, hvals⟩ :=
            ih s1 (replaceItem catalog prod.id
              { prod with currency := "AED"
                          unitPrice := prod.unitPrice * rate }) nid hok1
              hndtl
              (by
                intro it2 hit2
                obtain ⟨prod2, hfi2, hne2⟩ :=
                  hprod it2 (List.mem_cons_of_mem _ hit2)
                refine ⟨prod2, ?_, hne2⟩
                rw [hcat1 it2.product (fun hc =>
                  hpn (by
                    rw [← hprodid, ← hc]
                    exact List.mem_map_of_mem (fun it => it.product) hit2))]
                exact hfi2)
              (fun it2 hit2 => hqty it2 (List.mem_cons_of_mem _ hit2))
          refine ⟨l', cat', n', ?_, hok', ?_, ?_, ?_⟩
          · simp only [applyApprovalMoves, hfi, hconv, if_true,
              Option.getD_some, show ("AED" == "") = false from rfl,
              Bool.false_eq_true, if_false, hstep]
            exact hrun
          · intro q0 t ht
            have h1 : findStock l' q0 t = findStock s1 q0 t := by
              apply hframe
              rcases ht with h | h
              · exact Or.inl h
              · exact Or.inr (fun hc =>
                  h (by rw [List.map_cons]; exact List.mem_cons_of_mem _ hc))
            have h2 : findStock s1 q0 t = findStock l q0 t := by
              apply hframe1
              rintro ⟨hq1, ht1⟩
              rcases ht with h | h
              · exact h ht1
              · exact h (by
                  rw [List.map_cons, hq1]
                  exact List.mem_cons_self _ _)
            rw [h1, h2]
          · intro j hj
            rw [List.map_cons, List.mem_cons] at hj
            push_neg at hj
            rw [hcatf j hj.2, hcat1 j (fun hc => hj.1 (hc.trans hprodid))]
          · intro it2 hit2 prod' hfi'
            rcases List.mem_cons.mp hit2 with h | h
            · subst h
              rw [hfi] at hfi'
              cases hfi'
              constructor
              · refine ⟨e1, ?_, ?_, rfl⟩
                · rw [hframe it2.product dest (Or.inr hpn), hself1]
                · rw [quantityAt_of_findStock hfs]
              · rw [hcatf it2.product hpn,
                  show it2.product = prod.id from hprodid.symm]
                exact hcatself
            · have hne : ¬(it2.product = item.product) := fun hc =>
                hpn (hc ▸ List.mem_map_of_mem (fun it => it.product) h)
              obtain ⟨⟨e, hfe, hqe, hce⟩, hcatv⟩ :=
                hvals it2 h prod' (by
                  rw [hcat1 it2.product (fun hc => hne (hc.trans hprodid))]
                  exact hfi')
              refine ⟨⟨e, hfe, ?_, hce⟩, hcatv⟩
              rw [hqe, quantityAt_congr (hframe1 it2.product dest
                (fun hc => hne hc.1))]
      | none =>
          have hx : stockSaveOk
              { id := nid
                product := item.product
                store := dest
                quantity := item.quantity
                margin := 0
                currency := "AED"
                unitPrice := 0
                lastUpdatedBy := u } = true :=
            stockSaveOk_iff.mpr ⟨hq0, Or.inr rfl⟩
          have hstep : approvalStep l nid dest item.product "AED"
              (prod.unitPrice * rate) item.quantity u =
              .ok (l ++ [{ id := nid
                           product := item.product
                           store := dest
                           quantity := item.quantity
                           margin := 0
                           currency := "AED"
                           unitPrice := 0
                           lastUpdatedBy := u }], nid + 1) := by
            simp only [approvalStep, hfs]
            rw [createStock, if_pos hx]
            rfl
          set e0 : StockEntry :=
            { id := nid
              product := item.product
              store := dest
              quantity := item.quantity
              margin := 0
              currency := "AED"
              unitPrice := 0
              lastUpdatedBy := u } with he0
          set s1 := l ++ [e0] with hs1
          have hok1 : StocksOk s1 = true := stocksOk_append hok hx
          have hframe1 : ∀ (q0 : ProductId) (t : StoreId),
              ¬(q0 = item.product ∧ t = dest) →
              findStock s1 q0 t = findStock l q0 t := by
            intro q0 t h
            rw [hs1, findStock_append,
              findStock_singleton_ne (e := e0) (by
                rintro ⟨h1, h2⟩
                exact h ⟨h1, h2⟩)]
            cases findStock l q0 t <;> rfl
          have hself1 : findStock s1 item.product dest = some e0 := by
            rw [hs1, findStock_append, hfs,
              findStock_singleton_self (e := e0) rfl rfl]
            rfl
          obtain ⟨l', cat', n', hrun, hok', hframe, hcatf, hvals⟩ :=
            ih s1 (replaceItem catalog prod.id
              { prod with currency := "AED"
                          unitPrice := prod.unitPrice * rate }) (nid + 1)
              hok1 hndtl
              (by
                intro it2 hit2
                obtain ⟨prod2, hfi2, hne2⟩ :=
                  hprod it2 (List.mem_cons_of_mem _ hit2)
                refine ⟨prod2, ?_, hne2⟩
                rw [hcat1 it2.product (fun hc =>
                  hpn (by
                    rw [← hprodid, ← hc]
                    exact List.mem_map_of_mem (fun it => it.product) hit2))]
                exact hfi2)
              (fun it2 hit2 => hqty it2 (List.mem_cons_of_mem _ hit2))
          refine ⟨l', cat', n', ?_, hok', ?_, ?_, ?_⟩
          · simp only [applyApprovalMoves, hfi, hconv, if_true,
              Option.getD_some, show ("AED" == "") = false from rfl,
              Bool.false_eq_true, if_false, hstep]
            exact hrun
          · intro q0 t ht
            have h1 : findStock l' q0 t = findStock s1 q0 t := by
              apply hframe
              rcases ht with h | h
              · exact Or.inl h
              · exact Or.inr (fun hc =>
                  h (by rw [List.map_cons]; exact List.mem_cons_of_mem _ hc))
            have h2 : findStock s1 q0 t = findStock l q0 t := by
              apply hframe1
              rintro ⟨hq1, ht1⟩
              rcases ht with h | h
              · exact h ht1
              · exact h (by
                  rw [List.map_cons, hq1]
                  exact List.mem_cons_self _ _)
            rw [h1, h2]
          · intro j hj
            rw [List.map_cons, List.mem_cons] at hj
            push_neg at hj
            rw [hcatf j hj.2, hcat1 j (fun hc => hj.1 (hc.trans hprodid))]
          · intro it2 hit2 prod' hfi'
            rcases List.mem_cons.mp hit2 with h | h
            · subst h
              rw [hfi] at hfi'
              cases hfi'
              constructor
              · refine ⟨e0, ?_, ?_, rfl⟩
                · rw [hframe it2.product dest (Or.inr hpn), hself1]
                · rw [quantityAt, hfs]
                  exact (zero_add _).symm
              · rw [hcatf it2.product hpn,
                  show it2.product = prod.id from hprodid.symm]
                exact hcatself
            · have hne : ¬(it2.product = item.product) := fun hc =>
                hpn (hc ▸ List.mem_map_of_mem (fun it => it.product) h)
              obtain ⟨⟨e, hfe, hqe, hce⟩, hcatv⟩ :=
                hvals it2 h prod' (by
                  rw [hcat1 it2.product (fun hc => hne (hc.trans hprodid))]
                  exact hfi')
              refine ⟨⟨e, hfe, ?_, hce⟩, hcatv⟩
              rw [hqe, quantityAt_congr (hframe1 it2.product dest
                (fun hc => hne hc.1))]

/-- Counterexample to C5 as stated: approving the draft manifest whose
transfer currency INR differs from the currency AED of product 3, with an
exchange rate supplied, creates the destination entry with quantity 10,
currency INR and the schema-default unit price 0; no converted price
100 * 0.044 is recorded anywhere and the catalog product is untouched. -/
theorem spec_C5_cex :
    (updatePackingList baseState reqApprove).2 = none ∧
    ((findStock (updatePackingList baseState reqApprove).1.stocks
      3 6).map (fun e => (e.quantity, e.currency, e.unitPrice))) =
      some (10, "INR", 0) ∧
    findItem (updatePackingList baseState reqApprove).1.catalog 3 =
      some itemAED ∧
    ¬((0 : ℚ) = 100 * mkRat 11 250) := by
  refine ⟨by decide, by decide, by decide, by norm_num [mkRat]⟩

/-- C5 as amended: the conversion runs only when the transfer currency is
exactly AED with a truthy exchange rate and a truthy product unit price;
each line then adds its quantity to the destination ledger entry and sets
its currency to AED, while the converted price unitPrice * exchangeRate is
persisted on the catalog product itself, which is repointed to currency
AED (the controller also assigns the converted price to a priceAfterMargin
path the store-stock schema does not declare, an assignment dropped on
save). -/
theorem spec_C5 (st : GState) (r : UpdatePLReq) (pl : PackingList)
    (dest : StoreId) (rate : ℚ)
    (hpl : findPL st.packingLists r.id = some pl)
    (hnapp : ¬(pl.status = "approved"))
    (hstat : r.status = some "approved")
    (hitems : r.items = none) (htos : r.toStoreId = none)
    (hcur : r.currency = none) (hrate : r.exchangeRate = none)
    (hdest : pl.toStore = some dest)
    (hAED : pl.currency = "AED") (hxr : pl.exchangeRate = some rate)
    (hr0 : rate ≠ 0)
    (hok : StocksOk st.stocks = true)
    (hnd : (pl.items.map (fun it => it.product)).Nodup)
    (hprod : ∀ it ∈ pl.items, ∃ prod,
      findItem st.catalog it.product = some prod ∧ prod.unitPrice ≠ 0)
    (hqty : ∀ it ∈ pl.items, 0 ≤ it.quantity) :
    ∃ st', updatePackingList st r = (st', none) ∧
      ∀ it ∈ pl.items, ∀ prod,
        findItem st.catalog it.product = some prod →
        (∃ e, findStock st'.stocks it.product dest = some e ∧
          e.quantity = quantityAt st.stocks it.product dest + it.quantity ∧
          e.currency = "AED") ∧
        findItem st'.catalog it.product =
          some { prod with currency := "AED"
                           unitPrice := prod.unitPrice * rate } := by
  obtain ⟨l', cat', n', hrun, hok', hframe, hcatf, hvals⟩ :=
    applyApprovalMoves_spec dest rate r.user hr0 pl.items st.stocks
      st.catalog st.nextStockId hok hnd hprod hqty
  have hc1 : (("approved" != "") &&
      plStatusStrings.contains "approved") = true := by decide
  have hc2 : (("approved" == "approved") &&
      (pl.status != "approved")) = true := by
    simp [bne_iff_ne, hnapp]
  simp only [updatePackingList, hpl, htos, hcur, hrate, hitems]
  simp only [finishPLUpdate, hstat, hc1, hc2, if_true, hdest, hAED, hxr,
    hrun]
  refine ⟨_, rfl, ?_⟩
  intro it hit prod hfi
  exact hvals it hit prod hfi

/-- Witness for C5 at the numbers of the specification example: a manifest
of quantity 10 of product 1 (unit price 100 INR) with currency AED and
exchange rate 0.044 lands 10 units on the destination store 6 in AED, and
the catalog product 1 ends at currency AED with unit price 4.4. -/
theorem spec_C5_witness :
    (updatePackingList stAED reqApprove).2 = none ∧
    ((findStock (updatePackingList stAED reqApprove).1.stocks 1 6).map
      (fun e => (e.quantity, e.currency))) = some (10, "AED") ∧
    ((findItem (updatePackingList stAED reqApprove).1.catalog 1).map
      (fun p => (p.currency, p.unitPrice))) = some ("AED", 22/5) := by
  obtain ⟨st', hrun, hvals⟩ :=
    spec_C5 stAED reqApprove plBase 6 (mkRat 11 250)
      (by decide) (by decide) rfl rfl rfl rfl rfl (by decide) (by decide)
      (by decide) (by decide) (by decide) (by decide)
      (by
        intro it hit
        have hmem : it = { product := 1, quantity := 10 } := by
          simpa [plBase, plDraft] using hit
        subst hmem
        exact ⟨itemA, by decide, by decide⟩)
      (by decide)
  rw [hrun]
  obtain ⟨⟨e, hfe, hqe, hce⟩, hcat⟩ :=
    hvals { product := 1, quantity := 10 } (by decide) itemA (by decide)
  refine ⟨rfl, ?_, ?_⟩
  · rw [show ((st', (none : Option ErrKind)).1) = st' from rfl, hfe]
    simp only [Option.map]
    rw [hqe, hce, show quantityAt stAED.stocks 1 6 = 0 from by decide]
    norm_num
  · rw [show ((st', (none : Option ErrKind)).1) = st' from rfl, hcat]
    simp only [Option.map]
    norm_num [itemA, mkRat]

theorem qcFanOut_zero (product : Item) (avail : ℚ) (u : UserId)
    (hav : ¬(avail > 0)) :
    ∀ (stores : List Store) (l : List StockEntry) (nid : Nat),
      qcFanOut l nid product avail u stores = (l, nid) := by
  intro stores
  induction stores with
  | nil => intro l nid; rfl
  | cons s tl ih =>
      intro l nid
      cases hfs : findStock l product.id s.id with
      | none => simp only [qcFanOut, hfs, if_neg hav]; exact ih l nid
      | some e => simp only [qcFanOut, hfs, if_neg hav]; exact ih l nid

/-- Functional specification of the approval fan-out with a positive
available quantity: every listed store (ids pairwise distinct) has the
available quantity added to its entry for the product, the entry being
created when absent, and no other key changes. -/
theorem qcFanOut_spec (product : Item) (avail : ℚ) (u : UserId)
    (hav : 0 < avail)
    (hcur : product.currency = "" ∨ product.currency = "INR" ∨
      product.currency = "AED") :
    ∀ (stores : List Store) (l : List StockEntry) (nid : Nat),
      StocksOk l = true →
      (stores.map (fun s => s.id)).Nodup →
      ∃ l' n', qcFanOut l nid product avail u stores = (l', n') ∧
        StocksOk l' = true ∧
        (∀ (q0 : ProductId) (t : StoreId),
          (¬ q0 = product.id ∨ t ∉ stores.map (fun s => s.id)) →
          findStock l' q0 t = findStock l q0 t) ∧
        (∀ s ∈ stores,
          quantityAt l' product.id s.id =
            quantityAt l product.id s.id + avail ∧
          (findStock l' product.id s.id).isSome = true) := by
  intro stores
  induction stores with
  | nil =>
      intro l nid hok _
      exact ⟨l, nid, rfl, hok, fun _ _ _ => rfl,
        fun _ h => absurd h (List.not_mem_nil _)⟩
  | cons store tl ih =>
      intro l nid hok hnd
      rw [List.map_cons, List.nodup_cons] at hnd
      obtain ⟨hsn, hndtl⟩ := hnd
      cases hfs : findStock l product.id store.id with
      | some existing =>
          obtain ⟨hkp, hks⟩ := findStock_some_key hfs
          have heok : stockSaveOk existing = true :=
            (List.all_eq_true.mp hok) existing (findStock_some_mem hfs)
          have hx : stockSaveOk
              { existing with
                quantity := existing.quantity + avail
                lastUpdatedBy := some u } = true :=
            stockSaveOk_iff.mpr
              ⟨add_nonneg (stockSaveOk_iff.mp heok).1 (le_of_lt hav),
               (stockSaveOk_iff.mp heok).2⟩
          have hsv : saveStockByKey l product.id store.id
              { existing with
                quantity := existing.quantity + avail
                lastUpdatedBy := some u } =
              .ok (replaceStock l product.id store.id
                { existing with
                  quantity := existing.quantity + avail
                  lastUpdatedBy := some u }) := by
            rw [saveStockByKey, if_pos hx]
          set e1 : StockEntry :=
            { existing with
              quantity := existing.quantity + avail
              lastUpdatedBy := some u } with he1
          set s1 := replaceStock l product.id store.id e1 with hs1
          have hok1 : StocksOk s1 = true := stocksOk_replace hok hx
          have hframe1 : ∀ (q0 : ProductId) (t : StoreId),
              ¬(q0 = product.id ∧ t = store.id) →
              findStock s1 q0 t = findStock l q0 t := by
            intro q0 t h
            exact findStock_replaceStock_ne hkp hks h
          have hself1 : findStock s1 product.id store.id = some e1 :=
            findStock_replaceStock_self hfs hkp hks
          obtain ⟨l', n', hfan, hok', hframe, hvals⟩ :=
            ih s1 nid hok1 hndtl
          refine ⟨l', n', ?_, hok', ?_, ?_⟩
          · simp only [qcFanOut, hfs, if_pos hav, hsv]
            exact hfan
          · intro q0 t ht
            have h1 : findStock l' q0 t = findStock s1 q0 t := by
              apply hframe
              rcases ht with h | h
              · exact Or.inl h
              · exact Or.inr (fun hc =>
                  h (by rw [List.map_cons]; exact List.mem_cons_of_mem _ hc))
            have h2 : findStock s1 q0 t = findStock l q0 t := by
              apply hframe1
              rintro ⟨hq1, ht1⟩
              rcases ht with h | h
              · exact h hq1
              · exact h (by
                  rw [List.map_cons, ht1]
                  exact List.mem_cons_self _ _)
            rw [h1, h2]
          · intro s hs
            rcases List.mem_cons.mp hs with h | h
            · subst h
              have hun : findStock l' product.id s.id =
                  findStock s1 product.id s.id :=
                hframe product.id s.id (Or.inr hsn)
              constructor
              · rw [quantityAt_congr hun,
                  quantityAt_of_findStock hself1,
                  quantityAt_of_findStock hfs]
              · rw [hun, hself1]
                rfl
            · have hne : ¬(s.id = store.id) := fun hc =>
                hsn (hc ▸ List.mem_map_of_mem (fun x => x.id) h)
              have h1 := hvals s h
              constructor
              · rw [h1.1, quantityAt_congr (hframe1 product.id s.id
                  (fun hc => hne hc.2))]
              · exact h1.2
      | none =>
          have hcurok : ((if product.currency == "" then "INR"
              else product.currency) = "INR" ∨
              (if product.currency == "" then "INR"
              else product.currency) = "AED") := by
            rcases hcur with h | h | h <;> simp [h]
          have hx : stockSaveOk
              { id := nid
                product := product.id
                store := store.id
                quantity := avail
                margin := 0
                currency := if product.currency == "" then "INR"
                            else product.currency
                unitPrice := product.unitPrice
                lastUpdatedBy := some u } = true :=
            stockSaveOk_iff.mpr ⟨le_of_lt hav, hcurok⟩
          have hcv : createStock l
              { id := nid
                product := product.id
                store := store.id
                quantity := avail
                margin := 0
                currency := if product.currency == "" then "INR"
                            else product.currency
                unitPrice := product.unitPrice
                lastUpdatedBy := some u } =
              .ok (l ++ [{ id := nid
                           product := product.id
                           store := store.id
                           quantity := avail
                           margin := 0
                           currency := if product.currency == "" then "INR"
                                       else product.currency
                           unitPrice := product.unitPrice
                           lastUpdatedBy := some u }]) := by
            rw [createStock, if_pos hx]
          set e0 : StockEntry :=
            { id := nid
              product := product.id
              store := store.id
              quantity := avail
              margin := 0
              currency := if product.currency == "" then "INR"
                          else product.currency
              unitPrice := product.unitPrice
              lastUpdatedBy := some u } with he0
          set s1 := l ++ [e0] with hs1
          have hok1 : StocksOk s1 = true := stocksOk_append hok hx
          have hframe1 : ∀ (q0 : ProductId) (t : StoreId),
              ¬(q0 = product.id ∧ t = store.id) →
              findStock s1 q0 t = findStock l q0 t := by
            intro q0 t h
            rw [hs1, findStock_append,
              findStock_singleton_ne (e := e0) (by
                rintro ⟨h1, h2⟩
                exact h ⟨h1, h2⟩)]
            cases findStock l q0 t <;> rfl
          have hself1 : findStock s1 product.id store.id = some e0 := by
            rw [hs1, findStock_append, hfs,
              findStock_singleton_self (e := e0) rfl rfl]
            rfl
          obtain ⟨l', n', hfan, hok', hframe, hvals⟩ :=
            ih s1 (nid + 1) hok1 hndtl
          refine ⟨l', n', ?_, hok', ?_, ?_⟩
          · simp only [qcFanOut, hfs, if_pos hav, hcv]
            exact hfan
          · intro q0 t ht
            have h1 : findStock l' q0 t = findStock s1 q0 t := by
              apply hframe
              rcases ht with h | h
              · exact Or.inl h
              · exact Or.inr (fun hc =>
                  h (by rw [List.map_cons]; exact List.mem_cons_of_mem _ hc))
            have h2 : findStock s1 q0 t = findStock l q0 t := by
              apply hframe1
              rintro ⟨hq1, ht1⟩
              rcases ht with h | h
              · exact h hq1
              · exact h (by
                  rw [List.map_cons, ht1]
                  exact List.mem_cons_self _ _)
            rw [h1, h2]
          · intro s hs
            rcases List.mem_cons.mp hs with h | h
            · subst h
              have hun : findStock l' product.id s.id =
                  findStock s1 product.id s.id :=
                hframe product.id s.id (Or.inr hsn)
              constructor
              · rw [quantityAt_congr hun,
                  quantityAt_of_findStock hself1, quantityAt, hfs]
                exact (zero_add _).symm
              · rw [hun, hself1]
                rfl
            · have hne : ¬(s.id = store.id) := fun hc =>
                hsn (hc ▸ List.mem_map_of_mem (fun x => x.id) h)
              have h1 := hvals s h
              constructor
              · rw [h1.1, quantityAt_congr (hframe1 product.id s.id
                  (fun hc => hne hc.2))]
              · exact h1.2

/-- C7: an approved quality-check submission adds the available quantity
max(0, quantity - damagedQuantity) to the ledger entry of the product at
every active purchaser store, creating the entry when absent; when the
available quantity is zero the ledger is untouched. -/
theorem spec_C7 (st : GState) (r : QCReq) (u : UserId) (product : Item)
    (A : ℚ) (hu : r.user = some u)
    (hfi : findItem st.catalog r.productId = some product)
    (hstat : r.status = "approved")
    (hdam : ∀ d, r.damagedQuantity = some d → 0 ≤ d)
    (hok : StocksOk st.stocks = true)
    (hnd : ((purchaserStores st.stores).map (fun s => s.id)).Nodup)
    (hcur : product.currency = "" ∨ product.currency = "INR" ∨
      product.currency = "AED")
    (hA : A = max 0 (product.quantity - r.damagedQuantity.getD 0)) :
    ∃ st', submitQualityCheck st r = (st', none) ∧
      (0 < A → ∀ s ∈ purchaserStores st.stores,
        quantityAt st'.stocks product.id s.id =
          quantityAt st.stocks product.id s.id + A ∧
        (findStock st'.stocks product.id s.id).isSome = true) ∧
      (¬ 0 < A → st'.stocks = st.stocks) := by
  subst hA
  have hco : (!(qcStatusStrings.contains "approved")) = false := by decide
  have hdf : (match r.damagedQuantity with
      | some d => decide (d < 0)
      | none => false) = false := by
    cases hd : r.damagedQuantity with
    | none => rfl
    | some d => exact decide_eq_false (not_lt.mpr (hdam d hd))
  by_cases hpos : 0 < max 0 (product.quantity - r.damagedQuantity.getD 0)
  · obtain ⟨l', n', hfan, hok', hframe, hvals⟩ :=
      qcFanOut_spec product
        (max 0 (product.quantity - r.damagedQuantity.getD 0)) u hpos hcur
        (purchaserStores st.stores) st.stocks st.nextStockId hok hnd
    have hrunEq : submitQualityCheck st r =
        ({ st with
            catalog := replaceItem st.catalog product.id
              (qcUpdateProduct product "approved" r.damagedQuantity)
            stocks := l'
            nextStockId := n' }, none) := by
      simp only [submitQualityCheck, hu, hfi, hstat, hco,
        Bool.false_eq_true, if_false, hdf,
        show ("approved" == "approved") = true from rfl, if_true, hfan]
    refine ⟨_, hrunEq, ?_, ?_⟩
    · intro _ s hs
      exact hvals s hs
    · intro h
      exact absurd hpos h
  · have hzero := qcFanOut_zero product
      (max 0 (product.quantity - r.damagedQuantity.getD 0)) u hpos
      (purchaserStores st.stores) st.stocks st.nextStockId
    have hrunEq : submitQualityCheck st r =
        ({ st with
            catalog := replaceItem st.catalog product.id
              (qcUpdateProduct product "approved" r.damagedQuantity)
            stocks := st.stocks
            nextStockId := st.nextStockId }, none) := by
      simp only [submitQualityCheck, hu, hfi, hstat, hco,
        Bool.false_eq_true, if_false, hdf,
        show ("approved" == "approved") = true from rfl, if_true, hzero]
    refine ⟨_, hrunEq, ?_, ?_⟩
    · intro h
      exact absurd h hpos
    · intro _
      rfl

/-- Witness for C7: submitting an approved quality check for product 1
(quantity 12, damaged 2) adds 10 to its entry at purchaser store 5 (5
becomes 15) and creates the entry with quantity 10 at purchaser store 6. -/
theorem spec_C7_witness :
    (submitQualityCheck baseState reqQC).2 = none ∧
    quantityAt (submitQualityCheck baseState reqQC).1.stocks 1 5 = 15 ∧
    quantityAt (submitQualityCheck baseState reqQC).1.stocks 1 6 = 10 ∧
    (findStock (submitQualityCheck baseState reqQC).1.stocks 1 6).isSome
      = true := by
  obtain ⟨st', hrun, hpos, hneg⟩ :=
    spec_C7 baseState reqQC 3 itemA
      (max 0 (itemA.quantity - reqQC.damagedQuantity.getD 0))
      rfl (by decide) rfl
      (by
        intro d hd
        have hd2 : 2 = d := by simpa [reqQC] using hd
        subst hd2
        norm_num)
      (by decide) (by decide) (Or.inr (Or.inl rfl)) rfl
  have hA : (0:ℚ) < max 0 (itemA.quantity - reqQC.damagedQuantity.getD 0)
      := by norm_num [itemA, reqQC]
  have hmax : max 0 (itemA.quantity - reqQC.damagedQuantity.getD 0) = 10
      := by norm_num [itemA, reqQC]
  have hbase5 : quantityAt baseState.stocks 1 5 = 5 := by decide
  have hbase6 : quantityAt baseState.stocks 1 6 = 0 := by decide
  have h5 := hpos hA store5 (by decide)
  have h6 := hpos hA store6 (by decide)
  rw [hrun]
  refine ⟨rfl, ?_, ?_, ?_⟩
  · show quantityAt st'.stocks itemA.id store5.id = 15
    rw [h5.1, show store5.id = 5 from rfl, show itemA.id = 1 from rfl,
      hbase5, hmax]
    norm_num
  · show quantityAt st'.stocks itemA.id store6.id = 10
    rw [h6.1, show store6.id = 6 from rfl, show itemA.id = 1 from rfl,
      hbase6, hmax]
    norm_num
  · show (findStock st'.stocks itemA.id store6.id).isSome = true
    exact h6.2

end Inventory
